import Mathlib

set_option autoImplicit false

/-!
# quorum-account-plugin-pkcs-11: account manager and PKCS#11 adapter

A shallow embedding of `internal/pkcs11/acctmanager.go` and
`internal/pkcs11/cryptoki.go`.

* Go strings are Lean strings, byte slices are lists of naturals.
* A Go `(value, error)` result is a pair whose second component is
  `Option String` (`none` is the nil error).
* `map[string]*lockableKey` is an association list from the key string to the
  identity of the stored `*lockableKey`; every `&lockableKey{}` evaluates to an
  identity that differs from all those still referenced, by the map or by a
  waiting goroutine.
* A goroutine started by `go a.lockAfter(...)` is a pending timer of the
  manager state; the moment its `t.C` branch runs is a separate transition.
* The methods of `accountManager` are first embedded as calls that run from start to
  return with no step of another goroutine in between. `Interleaved` then splits
  `TimedUnlock`, `Lock` and `lockAfter` at the points where the source lets other
  goroutines run, and a sequence of `Event`s is one interleaving.
-/

namespace Pkcs11

/-! ## Package `account` -/

/-- Modelled from the spec: `account.Address`, a fixed-length 20-byte identifier
(the `account` package is not among the sources). -/
structure Address where
  bytes : List (Fin 256)
  len : bytes.length = 20
deriving DecidableEq

/-- Table of lowercase hexadecimal digits, as in Go `encoding/hex`. -/
def hextable : List Char :=
  ['0', '1', '2', '3', '4', '5', '6', '7', '8', '9', 'a', 'b', 'c', 'd', 'e', 'f']

/-- Go `hex.EncodeToString`: two lowercase digits per byte, high nibble first. -/
def EncodeToString : List (Fin 256) → List Char
  | [] => []
  | b :: rest => hextable.getD (b.val / 16) '0' :: hextable.getD (b.val % 16) '0' :: EncodeToString rest

/-- Modelled from the spec: `Address.ToHexString` (the `account` package is not among the
sources); the address printed as lowercase hex, 40 digits, without a `0x` in front. -/
def Address.ToHexString (a : Address) : String :=
  String.mk (EncodeToString a.bytes)

/-- The zero value of `account.Address`. -/
def zeroAddress : Address :=
  ⟨List.replicate 20 0, by simp⟩

/-- Value of one hexadecimal digit, either case. -/
def fromHexChar (c : Char) : Option Nat :=
  if '0' ≤ c ∧ c ≤ '9' then some (c.toNat - '0'.toNat)
  else if 'a' ≤ c ∧ c ≤ 'f' then some (c.toNat - 'a'.toNat + 10)
  else if 'A' ≤ c ∧ c ≤ 'F' then some (c.toNat - 'A'.toNat + 10)
  else none

/-- Go `hex.DecodeString`: `none` on an odd length or on a character that is not a digit. -/
def DecodeString : List Char → Option (List (Fin 256))
  | [] => some []
  | [_] => none
  | h :: l :: rest =>
    match fromHexChar h, fromHexChar l, DecodeString rest with
    | some x, some y, some bs => some (Fin.ofNat (x * 16 + y) :: bs)
    | _, _, _ => none

/-- Go `strings.TrimPrefix`. -/
def TrimPrefix (s pre : String) : String :=
  if pre.data.isPrefixOf s.data then String.mk (s.data.drop pre.data.length) else s

/-- Modelled from the spec: `account.NewAddressFromHexString` (the `account` package is not
among the sources); accepts an optional `0x` in front, hex digits of either case, and fails
unless the decoded length is exactly 20 bytes. On failure the address returned next to the
error is the zero value. -/
def NewAddressFromHexString (s : String) : Address × Option String :=
  match DecodeString (TrimPrefix s "0x").data with
  | some bs =>
    if h : bs.length = 20 then (⟨bs, h⟩, none)
    else (zeroAddress, some "account address must have length 20 bytes")
  | none => (zeroAddress, some "invalid hex address")

/-! ## Package `config` (`models.go`) -/

/-- The fields of `url.URL` that this repository reads. -/
structure URL where
  Scheme : String
  Host : String
  Path : String
deriving DecidableEq

/-- The process environment: `os.LookupEnv`. -/
abbrev Env := String → Option String

/-- Go `config.EnvironmentVariable`, a `url.URL` whose host names the variable. -/
abbrev EnvironmentVariable := URL

/-- Go `EnvironmentVariable.Get`: `os.Getenv` of the host, empty when the variable is unset. -/
def EnvironmentVariable.Get (e : EnvironmentVariable) (env : Env) : String :=
  (env e.Host).getD ""

/-- Go `EnvironmentVariable.IsSet`. -/
def EnvironmentVariable.IsSet (e : EnvironmentVariable) (env : Env) : Bool :=
  if e.Host = "" then false else (env e.Host).isSome

/-- Go `config.Pkcs11Library`; `Path` may be nil, the two indirections are taken non-nil. -/
structure Pkcs11Library where
  Path : Option URL
  SlotLabel : EnvironmentVariable
  SlotPin : EnvironmentVariable

/-- Go `config.NewAccount`. -/
structure NewAccount where
  SecretName : String

/-- Go `config.Config`. -/
structure Config where
  Library : Pkcs11Library
  Unlock : List String

/-! ## Go maps as association lists -/

/-- The map read `m[k]` with its `ok` flag. -/
def mapGet (m : List (String × Nat)) (k : String) : Option Nat :=
  match m with
  | [] => none
  | (k', v) :: rest => if k' = k then some v else mapGet rest k

/-- The builtin `delete(m, k)`. -/
def mapDelete (m : List (String × Nat)) (k : String) : List (String × Nat) :=
  m.filter (fun p => decide (p.1 ≠ k))

/-- The map write `m[k] = v`. -/
def mapSet (m : List (String × Nat)) (k : String) (v : Nat) : List (String × Nat) :=
  (k, v) :: mapDelete m k

/-! ## The account manager (`acctmanager.go`) -/

/-- A Go byte slice. -/
abbrev Bytes := List Nat

/-- The `([]byte, error)` result of a signing call; `none` is nil. -/
abbrev SignResult := Option Bytes × Option String

/-- The part of the `Cryptoki` interface that the lock state machine calls. -/
structure Cryptoki where
  Contains : Address → Bool
  Sign : Bytes → Address → SignResult

/-- A goroutine `go a.lockAfter(addr, key, duration)` that is still waiting. -/
structure Timer where
  addr : String
  key : Nat
  duration : Int
deriving DecidableEq

/-- The struct `accountManager`. `unlocked` maps a key string to the identity of the
stored `*lockableKey`; `timers` are the waiting `lockAfter` goroutines. The mutex is not
represented: operations are atomic transitions. -/
structure accountManager where
  wrapper : Cryptoki
  unlocked : List (String × Nat)
  timers : List Timer

namespace accountManager

/-- The identities of the `lockableKey` values that are still referenced. -/
def liveKeys (a : accountManager) : List Nat :=
  a.unlocked.map (fun p => p.2) ++ a.timers.map (fun t => t.key)

/-- The identity of a newly allocated `&lockableKey{}`: one that is not live. -/
def newLockableKey (a : accountManager) : Nat :=
  a.liveKeys.foldr max 0 + 1

/-- Go `accountManager.Contains`. -/
def Contains (a : accountManager) (acctAddr : Address) : Bool :=
  a.wrapper.Contains acctAddr

/-- Go `accountManager.Sign`. -/
def Sign (a : accountManager) (acctAddr : Address) (toSign : Bytes) :
    SignResult × accountManager :=
  if !a.Contains acctAddr then
    ((none, some "account does not exist"), a)
  else
    let ok := (mapGet a.unlocked acctAddr.ToHexString).isSome
    if !ok then
      ((none, some "account locked"), a)
    else
      (a.wrapper.Sign toSign acctAddr, a)

/-- Go `accountManager.TimedUnlock`, run from its start to its return with no step of
another goroutine in between; `Interleaved.timedUnlockBegins` and
`Interleaved.timedUnlockStores` are its two parts. The goroutine is started only for a
positive duration, with the untrimmed hex string; the entry is stored under the trimmed
one. -/
def TimedUnlock (a : accountManager) (acctAddr : Address) (duration : Int) :
    Option String × accountManager :=
  if !a.Contains acctAddr then
    (some "account does not exist", a)
  else
    let lockableKey := a.newLockableKey
    let timers :=
      if duration > 0 then a.timers ++ [⟨acctAddr.ToHexString, lockableKey, duration⟩]
      else a.timers
    let addr := TrimPrefix acctAddr.ToHexString "0x"
    (none, { a with
      unlocked := mapSet a.unlocked addr lockableKey
      timers := timers })

/-- The `t.C` branch of `lockAfter`, run with no step of another goroutine between the
comparison and the delete: delete the entry of `addr` if it is still `key`;
`Interleaved.lockAfterCompares` and `Interleaved.lockAfterDeletes` are its two parts.
The other branch of the select, `<-key.cancel`, is never taken: no `lockableKey` is
ever given a channel, and a receive from a nil channel blocks for ever. -/
def lockAfter (a : accountManager) (addr : String) (key : Nat) : accountManager :=
  if mapGet a.unlocked addr = some key then
    { a with unlocked := mapDelete a.unlocked addr }
  else a

/-- Go `accountManager.Lock`: runs `lockAfter` with duration 0 in the calling goroutine. -/
def Lock (a : accountManager) (acctAddr : Address) : accountManager :=
  let addrHex := acctAddr.ToHexString
  match mapGet a.unlocked addrHex with
  | some lockable => a.lockAfter addrHex lockable
  | none => a

/-- Go `accountManager.UnlockAndSign`; the deferred `Lock` runs after the module has signed. -/
def UnlockAndSign (a : accountManager) (acctAddr : Address) (toSign : Bytes) :
    SignResult × accountManager :=
  if !a.Contains acctAddr then
    ((none, some "account does not exist"), a)
  else
    let unlocked := (mapGet a.unlocked acctAddr.ToHexString).isSome
    if !unlocked then
      match a.TimedUnlock acctAddr 0 with
      | (some err, a1) => ((none, some err), a1)
      | (none, a1) => (a1.wrapper.Sign toSign acctAddr, a1.Lock acctAddr)
    else
      (a.wrapper.Sign toSign acctAddr, a)

/-- The timer of a waiting `lockAfter` goroutine fires: the goroutine leaves the pending
set and runs its `t.C` branch, with no step of another goroutine in between. A timer that
is not pending cannot fire. -/
def timerFires (a : accountManager) (t : Timer) : accountManager :=
  if t ∈ a.timers then
    lockAfter { a with timers := a.timers.erase t } t.addr t.key
  else a

end accountManager

/-- Go `NewAccountManager` for a non-nil `wrapper`. A parse error is logged; the loop body
then goes on to `TimedUnlock` with the address returned next to the error. -/
def NewAccountManager (wrapper : Cryptoki) (config : Config) :
    accountManager × Option String :=
  let a : accountManager := { wrapper := wrapper, unlocked := [], timers := [] }
  let a := config.Unlock.foldl
    (fun (a : accountManager) (toUnlock : String) =>
      let addr := (NewAddressFromHexString toUnlock).1
      (a.TimedUnlock addr 0).2) a
  (a, none)

/-- One transition of the manager: a call of one of its methods, or the firing of a
pending timer, each run to its end before the next begins. `other` stands for the methods that only delegate to the module or only
read (`Open`, `Close`, `Status`, `Accounts`, `Contains`, `NewAccount`,
`ImportPrivateKey`). -/
inductive Op where
  | sign (acctAddr : Address) (toSign : Bytes)
  | unlockAndSign (acctAddr : Address) (toSign : Bytes)
  | timedUnlock (acctAddr : Address) (duration : Int)
  | lock (acctAddr : Address)
  | fire (t : Timer)
  | other

/-- The manager state after one transition. -/
def step (a : accountManager) : Op → accountManager
  | Op.sign acctAddr toSign => (a.Sign acctAddr toSign).2
  | Op.unlockAndSign acctAddr toSign => (a.UnlockAndSign acctAddr toSign).2
  | Op.timedUnlock acctAddr duration => (a.TimedUnlock acctAddr duration).2
  | Op.lock acctAddr => a.Lock acctAddr
  | Op.fire t => a.timerFires t
  | Op.other => a

/-- The manager state after a sequence of transitions. -/
def run (a : accountManager) (ops : List Op) : accountManager :=
  ops.foldl step a

/-- The transition is a call `Lock(acctAddr)`. -/
def Op.isLockOf (acctAddr : Address) : Op → Bool
  | Op.lock b => decide (b = acctAddr)
  | _ => false

/-- The transition is a call `TimedUnlock(acctAddr, d)` with a positive `d`, which arms a
timer for the entry it stores. -/
def Op.armsTimerFor (acctAddr : Address) : Op → Bool
  | Op.timedUnlock b d => decide (b = acctAddr) && decide (d > 0)
  | _ => false

/-- The address is unlocked and no waiting goroutine holds the entry stored for it. -/
def heldOpen (w : Cryptoki) (acctAddr : Address) (s : accountManager) : Prop :=
  s.wrapper = w ∧
    ∃ k, mapGet s.unlocked acctAddr.ToHexString = some k ∧ ∀ t ∈ s.timers, t.key ≠ k

/-! ## The PKCS#11 adapter (`cryptoki.go`) -/

/-- Constant `pkcs11.CKA_CLASS`. -/
def CKA_CLASS : Nat := 0x0
/-- Constant `pkcs11.CKA_TOKEN`. -/
def CKA_TOKEN : Nat := 0x1
/-- Constant `pkcs11.CKA_PRIVATE`. -/
def CKA_PRIVATE : Nat := 0x2
/-- Constant `pkcs11.CKA_LABEL`. -/
def CKA_LABEL : Nat := 0x3
/-- Constant `pkcs11.CKA_VALUE`. -/
def CKA_VALUE : Nat := 0x11
/-- Constant `pkcs11.CKA_KEY_TYPE`. -/
def CKA_KEY_TYPE : Nat := 0x100
/-- Constant `pkcs11.CKA_ID`. -/
def CKA_ID : Nat := 0x102
/-- Constant `pkcs11.CKA_SIGN`. -/
def CKA_SIGN : Nat := 0x108
/-- Constant `pkcs11.CKA_VERIFY`. -/
def CKA_VERIFY : Nat := 0x10A
/-- Constant `pkcs11.CKA_PUBLIC_KEY_INFO`. -/
def CKA_PUBLIC_KEY_INFO : Nat := 0x129
/-- Constant `pkcs11.CKA_EXTRACTABLE`. -/
def CKA_EXTRACTABLE : Nat := 0x162
/-- Constant `pkcs11.CKA_EC_PARAMS`. -/
def CKA_EC_PARAMS : Nat := 0x180
/-- Constant `pkcs11.CKA_EC_POINT`. -/
def CKA_EC_POINT : Nat := 0x181
/-- Constant `pkcs11.CKR_ATTRIBUTE_SENSITIVE`, which the import template uses as an attribute type. -/
def CKR_ATTRIBUTE_SENSITIVE : Nat := 0x11
/-- Constant `pkcs11.CKO_PUBLIC_KEY`. -/
def CKO_PUBLIC_KEY : Nat := 0x2
/-- Constant `pkcs11.CKO_PRIVATE_KEY`. -/
def CKO_PRIVATE_KEY : Nat := 0x3
/-- Constant `pkcs11.CKK_EC`. -/
def CKK_EC : Nat := 0x3
/-- Constant `pkcs11.CKU_USER`. -/
def CKU_USER : Nat := 1
/-- Constant `pkcs11.CKF_RW_SESSION`. -/
def CKF_RW_SESSION : Nat := 0x2
/-- Constant `pkcs11.CKF_SERIAL_SESSION`. -/
def CKF_SERIAL_SESSION : Nat := 0x4
/-- Constant `pkcs11.CKM_ECDSA_SHA256`. -/
def CKM_ECDSA_SHA256 : Nat := 0x1044

/-- Go `pkcs11.Attribute`: a type (the Go field `Type`) and the value as bytes. -/
structure Attribute where
  Typ : Nat
  Value : Bytes
deriving DecidableEq

/-- The bytes of a Go string. -/
def stringBytes (s : String) : Bytes :=
  (s.data.flatMap String.utf8EncodeChar).map UInt8.toNat

/-- Go `pkcs11.NewAttribute` on an integer: the eight bytes of a C unsigned long, least
significant first. -/
def NewAttributeUint (typ : Nat) (v : Nat) : Attribute :=
  ⟨typ, (List.range 8).map (fun i => v / 256 ^ i % 256)⟩

/-- Go `pkcs11.NewAttribute` on a boolean: one byte. -/
def NewAttributeBool (typ : Nat) (v : Bool) : Attribute :=
  ⟨typ, [if v then 1 else 0]⟩

/-- Go `pkcs11.NewAttribute` on a string. -/
def NewAttributeString (typ : Nat) (v : String) : Attribute :=
  ⟨typ, stringBytes v⟩

/-- Go `pkcs11.NewAttribute` on a byte slice. -/
def NewAttributeBytes (typ : Nat) (v : Bytes) : Attribute :=
  ⟨typ, v⟩

/-- The device behind `*pkcs11.Ctx`, an external library: each method used by the adapter
is a function of its arguments. `FindObjects` also receives the template of the
`FindObjectsInit` that opened the search. `GetAttributeValue` is called with one-attribute
templates only; on success the library returns one attribute per template entry, and the
function gives the value of that attribute. -/
structure Ctx where
  GetSlotList : Bool → List Nat × Option String
  GetTokenInfo : Nat → String × Option String
  OpenSession : Nat → Nat → Nat × Option String
  Login : Nat → Nat → String → Option String
  FindObjectsInit : Nat → List Attribute → Option String
  FindObjects : Nat → List Attribute → Nat → List Nat × Option String
  GetAttributeValue : Nat → Nat → Nat → Bytes × Option String
  CreateObject : Nat → List Attribute → Nat × Option String
  SetAttributeValue : Nat → Nat → List Attribute → Option String
  SignInit : Nat → Nat → Nat → Option String
  Sign : Nat → Bytes → SignResult

/-- What the adapter calls outside this repository besides the device: the ASN.1 encoding of
the curve identifier, `elliptic.Marshal`, and the two constructors of the `account` package,
which is not among the sources. -/
structure Lib where
  asn1MarshalOID : Bytes × Option String
  ellipticMarshal : Int → Int → Bytes
  PublicKeyBytesToAddress : Bytes → Address × Option String
  NewAddress : Bytes → Address × Option String

/-- Go `account.Account`; the URL is always nil here. -/
structure Account where
  Address : Address
deriving DecidableEq

/-- The struct `pkcs11Wrapper`. -/
structure pkcs11Wrapper where
  Library : Pkcs11Library
  Context : Ctx
  Session : Nat

/-- A call made to the device. -/
inductive Call where
  | GetSlotList
  | GetTokenInfo (slot : Nat)
  | OpenSession (slot flags : Nat)
  | Login (session userType : Nat) (pin : String)
deriving DecidableEq

namespace pkcs11Wrapper

/-- The loop of `OpenSession` over the slots. The result is the error of an early return,
the value of `p.Session` and the device calls made so far. -/
def openSlots (p : pkcs11Wrapper) (env : Env) :
    List Nat → Nat → List Call → Option String × Nat × List Call
  | [], session, calls => (none, session, calls)
  | s :: rest, session, calls =>
    let (label, err) := p.Context.GetTokenInfo s
    let calls := calls ++ [Call.GetTokenInfo s]
    if err.isSome || p.Library.SlotLabel.Get env != label then
      openSlots p env rest session calls
    else
      let flags := CKF_SERIAL_SESSION ||| CKF_RW_SESSION
      let (h, err) := p.Context.OpenSession s flags
      let calls := calls ++ [Call.OpenSession s flags]
      if err.isSome then (err, h, calls)
      else openSlots p env rest h calls

/-- Go `pkcs11Wrapper.OpenSession`: the error, the wrapper afterwards, and the device calls
made, in order. -/
def OpenSession (p : pkcs11Wrapper) (env : Env) : Option String × pkcs11Wrapper × List Call :=
  let (slots, err) := p.Context.GetSlotList true
  if err.isSome then (err, p, [Call.GetSlotList])
  else
    match p.openSlots env slots p.Session [Call.GetSlotList] with
    | (some e, session, calls) => (some e, { p with Session := session }, calls)
    | (none, session, calls) =>
      let p1 := { p with Session := session }
      let slotPIN := if p1.Library.SlotPin.IsSet env then p1.Library.SlotPin.Get env else ""
      let err := p1.Context.Login p1.Session CKU_USER slotPIN
      (err, p1, calls ++ [Call.Login p1.Session CKU_USER slotPIN])

/-- Go `pkcs11Wrapper.findAllKeys`. -/
def findAllKeys (p : pkcs11Wrapper) : List Nat × Option String :=
  let findTemplate := [NewAttributeUint CKA_CLASS CKO_PUBLIC_KEY]
  match p.Context.FindObjectsInit p.Session findTemplate with
  | some err => ([], some err)
  | none =>
    match p.Context.FindObjects p.Session findTemplate 100 with
    | (_, some err) => ([], some err)
    | (keys, none) => (keys, none)

/-- The loop of `Accounts` over the handles found. -/
def accountsLoop (p : pkcs11Wrapper) (lib : Lib) :
    List Nat → List Account → List Account × Option String
  | [], accts => (accts, none)
  | acctHandle :: rest, accts =>
    match p.Context.GetAttributeValue p.Session acctHandle CKA_ID with
    | (_, some err) => ([], some err)
    | (value, none) =>
      match lib.NewAddress value with
      | (_, some err) => ([], some err)
      | (addr, none) => accountsLoop p lib rest (accts ++ [⟨addr⟩])

/-- Go `pkcs11Wrapper.Accounts`: the error of `findAllKeys` is assigned to the blank
identifier. -/
def Accounts (p : pkcs11Wrapper) (lib : Lib) : List Account × Option String :=
  let w := p.findAllKeys.1
  p.accountsLoop lib w []

/-- Go `pkcs11Wrapper.findPrivateKey`. -/
def findPrivateKey (p : pkcs11Wrapper) (acctAddr : Address) : Nat × Option String :=
  let findTemplate := [NewAttributeString CKA_ID acctAddr.ToHexString,
    NewAttributeUint CKA_CLASS CKO_PRIVATE_KEY]
  match p.Context.FindObjectsInit p.Session findTemplate with
  | some err => (0, some err)
  | none =>
    match p.Context.FindObjects p.Session findTemplate 1 with
    | (_, some err) => (0, some err)
    | ([], none) => (0, some "key not found")
    | (k :: _, none) => (k, none)

/-- Go `pkcs11Wrapper.Contains`: `err != nil`. -/
def Contains (p : pkcs11Wrapper) (acctAddr : Address) : Bool :=
  (p.findPrivateKey acctAddr).2 != none

/-- Go `pkcs11Wrapper.Sign`. -/
def Sign (p : pkcs11Wrapper) (toSign : Bytes) (acctAddr : Address) : SignResult :=
  match p.findPrivateKey acctAddr with
  | (_, some err) => (none, some err)
  | (key, none) =>
    match p.Context.SignInit p.Session CKM_ECDSA_SHA256 key with
    | some err => (none, some err)
    | none => p.Context.Sign p.Session toSign

end pkcs11Wrapper

/-- Go `big.Int`: a sign and the magnitude as a slice of 64-bit words, least significant
word first. -/
structure bigInt where
  neg : Bool
  abs : List Nat
deriving DecidableEq

/-- The natural number held by a slice of 64-bit words. -/
def wordsValue : List Nat → Nat
  | [] => 0
  | w :: rest => w % 2 ^ 64 + 2 ^ 64 * wordsValue rest

/-- The integer a `big.Int` reads as. -/
def bigInt.value (x : bigInt) : Int :=
  if x.neg then -(wordsValue x.abs : Int) else (wordsValue x.abs : Int)

/-- Go `big.Int.Bits`: the magnitude itself, sharing the words of the receiver. -/
def bigInt.Bits (x : bigInt) : List Nat :=
  x.abs

/-- The eight bytes of a word, most significant first. -/
def wordBytes (w : Nat) : Bytes :=
  (List.range 8).reverse.map (fun i => w / 256 ^ i % 256)

/-- Go `big.Int.Bytes`: the magnitude as big-endian bytes without leading zeros, a fresh
slice. -/
def bigInt.Bytes (x : bigInt) : Bytes :=
  (x.abs.reverse.flatMap wordBytes).dropWhile (fun b => b == 0)

/-- A non-nil `*ecdsa.PrivateKey` with a non-nil `D`: the public point and the scalar. -/
structure PrivateKey where
  X : Int
  Y : Int
  D : bigInt
deriving DecidableEq

/-- Go `zeroKey`: the loop writes 0 to every index of the slice `key.D.Bits()`, which is the
storage of `key.D`. -/
def zeroKey (key : PrivateKey) : PrivateKey :=
  let b := key.D.Bits
  let b := (List.range b.length).foldl (fun (b : List Nat) (i : Nat) => b.set i 0) b
  { key with D := { key.D with abs := b } }

/-- The zero value `account.Account{}`. -/
def zeroAccount : Account :=
  ⟨zeroAddress⟩

namespace pkcs11Wrapper

/-- The body of `ImportPrivateKey`, between the `defer` and the return. -/
def importPrivateKeyBody (p : pkcs11Wrapper) (lib : Lib) (key : PrivateKey)
    (conf : NewAccount) : Account × Option String :=
  match lib.asn1MarshalOID with
  | (_, some err) => (zeroAccount, some err)
  | (marshaledOID, none) =>
    let ecPt := lib.ellipticMarshal key.X key.Y
    let ecPt := [0x04, ecPt.length % 256] ++ ecPt
    let keyTemplate := [
      NewAttributeUint CKA_KEY_TYPE CKK_EC,
      NewAttributeUint CKA_CLASS CKO_PUBLIC_KEY,
      NewAttributeBool CKA_PRIVATE false,
      NewAttributeBool CKA_TOKEN true,
      NewAttributeBool CKA_VERIFY true,
      NewAttributeBytes CKA_EC_PARAMS marshaledOID,
      NewAttributeString CKA_LABEL conf.SecretName,
      NewAttributeBytes CKA_EC_POINT ecPt]
    match p.Context.CreateObject p.Session keyTemplate with
    | (_, some err) => (zeroAccount, some err)
    | (pubK, none) =>
      let keyTemplate := [
        NewAttributeUint CKA_KEY_TYPE CKK_EC,
        NewAttributeUint CKA_CLASS CKO_PRIVATE_KEY,
        NewAttributeBool CKA_PRIVATE true,
        NewAttributeBool CKA_TOKEN true,
        NewAttributeBool CKA_SIGN true,
        NewAttributeBytes CKA_EC_PARAMS marshaledOID,
        NewAttributeString CKA_LABEL conf.SecretName,
        NewAttributeBool CKR_ATTRIBUTE_SENSITIVE false,
        NewAttributeBool CKA_EXTRACTABLE true,
        NewAttributeBytes CKA_VALUE key.D.Bytes]
      match p.Context.CreateObject p.Session keyTemplate with
      | (_, some err) => (zeroAccount, some err)
      | (privK, none) =>
        match p.Context.GetAttributeValue p.Session pubK CKA_PUBLIC_KEY_INFO with
        | (_, some err) => (zeroAccount, some err)
        | (pubRaw, none) =>
          match lib.PublicKeyBytesToAddress pubRaw with
          | (_, some err) => (zeroAccount, some err)
          | (addr, none) =>
            let keyPairIdUpdateTemplate := [NewAttributeString CKA_ID addr.ToHexString]
            match p.Context.SetAttributeValue p.Session pubK keyPairIdUpdateTemplate with
            | some err => (zeroAccount, some err)
            | none =>
              match p.Context.SetAttributeValue p.Session privK keyPairIdUpdateTemplate with
              | some err => (zeroAccount, some err)
              | none => (⟨addr⟩, none)

/-- Go `pkcs11Wrapper.ImportPrivateKey`: the result, and the caller's key when the call has
returned. `defer zeroKey(key)` is the first statement, so `zeroKey` runs on every exit. -/
def ImportPrivateKey (p : pkcs11Wrapper) (lib : Lib) (key : PrivateKey)
    (conf : NewAccount) : (Account × Option String) × PrivateKey :=
  (p.importPrivateKeyBody lib key conf, zeroKey key)

end pkcs11Wrapper

/-- An object stored on a token: its handle and its attributes. -/
structure Object where
  handle : Nat
  attrs : List Attribute
deriving DecidableEq

/-- An object matches a search template when it carries every attribute of it. -/
def Object.matchesTemplate (o : Object) (template : List Attribute) : Bool :=
  template.all (fun t => decide (t ∈ o.attrs))

/-- A device with one slot, holding the given objects, whose searches, reads and logins
succeed, and which refuses to create or change objects and to sign. A search returns the
handles of the matching objects, at most `max` of them. -/
def tokenCtx (label : String) (objects : List Object) : Ctx where
  GetSlotList := fun _ => ([0], none)
  GetTokenInfo := fun _ => (label, none)
  OpenSession := fun _ _ => (1, none)
  Login := fun _ _ _ => none
  FindObjectsInit := fun _ _ => none
  FindObjects := fun _ template max =>
    (((objects.filter (fun o => o.matchesTemplate template)).map (fun o => o.handle)).take max,
      none)
  GetAttributeValue := fun _ h typ =>
    match objects.find? (fun o => o.handle == h) with
    | none => ([], some "CKR_OBJECT_HANDLE_INVALID")
    | some o =>
      match o.attrs.find? (fun t => t.Typ == typ) with
      | none => ([], some "CKR_ATTRIBUTE_TYPE_INVALID")
      | some t => (t.Value, none)
  CreateObject := fun _ _ => (0, some "CKR_FUNCTION_NOT_SUPPORTED")
  SetAttributeValue := fun _ _ _ => some "CKR_FUNCTION_NOT_SUPPORTED"
  SignInit := fun _ _ _ => some "CKR_FUNCTION_NOT_SUPPORTED"
  Sign := fun _ _ => (none, some "CKR_FUNCTION_NOT_SUPPORTED")

/-! ## `Status` and the mutex (`acctmanager.go`) -/

/-- Go `accountManager.Status`. `iteration` is the sequence of entries the `range` loop
over the map yields, which the runtime chooses; `%v` prints the count in decimal and the
slice of strings between brackets, separated by spaces. -/
def accountManager.Status (a : accountManager) (iteration : List (String × Nat)) :
    String × Option String :=
  let unlockedCount := a.unlocked.length
  let status := toString unlockedCount ++ " unlocked account(s)"
  if unlockedCount != 0 then
    let unlockedAddrs := iteration.map (fun p => "0x" ++ p.1)
    (status ++ ": " ++ ("[" ++ " ".intercalate unlockedAddrs ++ "]"), none)
  else
    (status, none)

/-- What a goroutine does to the mutex `mu` and to the map `unlocked`, one step at a
time: `a.mu.Lock()`, `a.mu.Unlock()`, a read of the map (an index expression, `len`, one
step of `range`) and a write (an assignment or `delete`). -/
inductive Access where
  | muLock
  | muUnlock
  | mapRead
  | mapWrite
deriving DecidableEq

/-- Every map access of the sequence happens while the goroutine holds the mutex; `held`
tells whether it holds it at the start. -/
def guarded : Bool → List Access → Bool
  | _, [] => true
  | _, Access.muLock :: rest => guarded true rest
  | _, Access.muUnlock :: rest => guarded false rest
  | held, Access.mapRead :: rest => held && guarded held rest
  | held, Access.mapWrite :: rest => held && guarded held rest

namespace accountManager

/-- The accesses of `Status`, in program order; the deferred unlock comes last. -/
def StatusAccesses (a : accountManager) : List Access :=
  [Access.muLock, Access.mapRead] ++
    (if a.unlocked.length != 0 then a.unlocked.map (fun _ => Access.mapRead) else []) ++
    [Access.muUnlock]

/-- The accesses of `Sign`, in program order. -/
def SignAccesses (a : accountManager) (acctAddr : Address) : List Access :=
  if !a.Contains acctAddr then []
  else [Access.muLock, Access.mapRead, Access.muUnlock]

/-- The accesses of `TimedUnlock` in the calling goroutine, in program order. -/
def TimedUnlockAccesses (a : accountManager) (acctAddr : Address) : List Access :=
  if !a.Contains acctAddr then []
  else [Access.muLock, Access.mapWrite, Access.muUnlock]

/-- The accesses of the `t.C` branch of `lockAfter`, in program order: the comparison
`a.unlocked[addr] == key` comes first, the mutex is taken inside the `if`. -/
def lockAfterAccesses (a : accountManager) (addr : String) (key : Nat) : List Access :=
  [Access.mapRead] ++
    (if mapGet a.unlocked addr = some key then
      [Access.muLock, Access.mapWrite, Access.muUnlock]
    else [])

/-- The accesses of `Lock`, in program order. -/
def LockAccesses (a : accountManager) (acctAddr : Address) : List Access :=
  let addrHex := acctAddr.ToHexString
  [Access.muLock, Access.mapRead, Access.muUnlock] ++
    (match mapGet a.unlocked addrHex with
    | some lockable => a.lockAfterAccesses addrHex lockable
    | none => [])

/-- The accesses of `UnlockAndSign`, in program order: the lookup, and for a locked
account those of `TimedUnlock`, the read `_, _ = a.unlocked[...]`, and those of the
deferred `Lock`. -/
def UnlockAndSignAccesses (a : accountManager) (acctAddr : Address) : List Access :=
  if !a.Contains acctAddr then []
  else
    let unlocked := (mapGet a.unlocked acctAddr.ToHexString).isSome
    [Access.muLock, Access.mapRead, Access.muUnlock] ++
      (if !unlocked then
        match a.TimedUnlock acctAddr 0 with
        | (some _, _) => a.TimedUnlockAccesses acctAddr
        | (none, a1) =>
          a.TimedUnlockAccesses acctAddr ++ [Access.mapRead] ++ a1.LockAccesses acctAddr
      else [])

end accountManager

/-! ## Validation (`validation.go`) -/

/-- Constant `InvalidLibraryPath`. -/
def InvalidLibraryPath : String := "'path' must be a valid absolute file url"

/-- Constant `MissingSlotLabel`. -/
def MissingSlotLabel : String :=
  "the given given environment for 'SlotLabel' variables must be set"

/-- Go `url.URL.String` for a URL that has only a scheme, a host and a path whose
characters need no escaping: the scheme with a colon, `//` and the host when there is a
scheme or a host, a `/` before a relative path that follows a host, `./` before a first
path segment holding a colon when nothing precedes it, and the path. -/
def URL.String (u : URL) : String :=
  let buf := if u.Scheme ≠ "" then u.Scheme ++ ":" else ""
  let buf :=
    if u.Scheme ≠ "" ∨ u.Host ≠ "" then
      (if u.Host ≠ "" ∨ u.Path ≠ "" then buf ++ "//" else buf) ++ u.Host
    else buf
  let buf :=
    if u.Path ≠ "" ∧ u.Path.data.head? ≠ some '/' ∧ u.Host ≠ "" then buf ++ "/" else buf
  let buf :=
    if buf = "" ∧ ':' ∈ u.Path.data.takeWhile (fun c => c != '/') then buf ++ "./" else buf
  buf ++ u.Path

/-- Go `isValidAbsFileUrl`. -/
def isValidAbsFileUrl (u : URL) : Bool :=
  u.Scheme == "file" && u.Host == "" && u.Path != ""

/-- Go `Pkcs11Library.validate`. -/
def Pkcs11Library.validate (l : Pkcs11Library) (env : Env) : Option String :=
  match l.Path with
  | none => some InvalidLibraryPath
  | some path =>
    if path.String == "" || !isValidAbsFileUrl path then some InvalidLibraryPath
    else if !l.SlotLabel.IsSet env then some MissingSlotLabel
    else none

/-- Go `Config.Validate`. -/
def Config.Validate (c : Config) (env : Env) : Option String :=
  match c.Library.validate env with
  | some err => some err
  | none => none

/-- The scheme of a raw URL and what follows its colon, as Go `getScheme` splits them:
letters, and after the first character also digits, `+`, `-` and `.`, up to a colon. Without
such a start the scheme is empty and the rest is the whole string. -/
def getScheme (raw : List Char) : List Char → List Char → List Char × List Char
  | _, [] => ([], raw)
  | acc, c :: rest =>
    if c.isAlpha then getScheme raw (acc ++ [c]) rest
    else if c.isDigit || c == '+' || c == '-' || c == '.' then
      if acc = [] then ([], raw) else getScheme raw (acc ++ [c]) rest
    else if c == ':' then
      if acc = [] then ([], raw) else (acc, rest)
    else ([], raw)

/-- Go `url.Parse` on a string of the shape `scheme://host/path`, each part optional,
without user, query, fragment or escapes: the scheme in lower case, the host between `//`
and the next `/`, the path after it. With a scheme and no leading `/` the rest is opaque
and the three fields modelled here stay empty. -/
def urlParse (rawURL : String) : URL :=
  let (scheme, rest) := getScheme rawURL.data [] rawURL.data
  let scheme := scheme.map Char.toLower
  if rest.head? ≠ some '/' ∧ scheme ≠ [] then ⟨String.mk scheme, "", ""⟩
  else if "//".data.isPrefixOf rest then
    let rest := rest.drop 2
    ⟨String.mk scheme, String.mk (rest.takeWhile (fun c => c != '/')),
      String.mk (rest.dropWhile (fun c => c != '/'))⟩
  else ⟨String.mk scheme, "", String.mk rest⟩

/-! ## Private keys from hex (`account` package) -/

/-- The integer that a byte string holds, most significant byte first. -/
def bytesValue (bs : List (Fin 256)) : Nat :=
  bs.foldl (fun acc b => acc * 256 + b.val) 0

/-- The 64-bit words of a natural number, least significant first, without leading zero
words; `fuel` bounds their number. -/
def natWords : Nat → Nat → List Nat
  | 0, _ => []
  | fuel + 1, n => if n = 0 then [] else n % 2 ^ 64 :: natWords fuel (n / 2 ^ 64)

/-- Go `new(big.Int).SetBytes`: the non-negative integer held by the bytes. -/
def bigInt.SetBytes (bs : List (Fin 256)) : bigInt :=
  ⟨false, natWords bs.length (bytesValue bs)⟩

/-- Modelled from the spec: `account.NewKeyFromHexString` (the `account` package is not
among the sources, only its tests are); accepts an optional `0x` in front, fails with
"invalid hex private key" on input that is not hex, fails with "private key must have
length 32 bytes" unless the decoded value is exactly 32 bytes, and otherwise builds the
key whose scalar is the decoded value and whose public point is the curve's multiple of
the base point, computed by `scalarBaseMult`. -/
def NewKeyFromHexString (scalarBaseMult : List (Fin 256) → Int × Int) (s : String) :
    Option PrivateKey × Option String :=
  match DecodeString (TrimPrefix s "0x").data with
  | none => (none, some "invalid hex private key")
  | some byt =>
    if byt.length ≠ 32 then (none, some "private key must have length 32 bytes")
    else
      (some ⟨(scalarBaseMult byt).1, (scalarBaseMult byt).2, bigInt.SetBytes byt⟩, none)

/-! ## Goroutines between their steps (`acctmanager.go`)

`TimedUnlock` starts its `lockAfter` goroutine before it stores the entry, and `lockAfter`
compares `a.unlocked[addr] == key` before it takes the mutex to delete. Other goroutines
can run between these steps, so here each of them is a transition of its own. -/

/-- The manager together with the calls that are between two of their steps. The timers
of `mgr` are the `lockAfter` executions whose timer has not fired yet; `storing` holds,
for each `TimedUnlock` that is past its `go` statement and has not yet stored, the key
string and the entry; `deleting` holds the `lockAfter` executions whose comparison
succeeded and which have not yet deleted. -/
structure Interleaved where
  mgr : accountManager
  storing : List (String × Nat)
  deleting : List Timer

namespace Interleaved

/-- The identities of the `lockableKey` values that some goroutine or the map still
refers to. -/
def liveKeys (s : Interleaved) : List Nat :=
  s.mgr.liveKeys ++ s.storing.map (fun p => p.2) ++ s.deleting.map (fun t => t.key)

/-- The identity of a newly allocated `&lockableKey{}`: one that is not live. -/
def newLockableKey (s : Interleaved) : Nat :=
  s.liveKeys.foldr max 0 + 1

/-- Go `TimedUnlock` from its start to its `go` statement: the early return with its error,
or the allocation of the entry and, for a positive duration, the start of the goroutine.
The store is still to come. -/
def timedUnlockBegins (s : Interleaved) (acctAddr : Address) (duration : Int) :
    Option String × Interleaved :=
  if !s.mgr.Contains acctAddr then
    (some "account does not exist", s)
  else
    let lockableKey := s.newLockableKey
    let timers :=
      if duration > 0 then s.mgr.timers ++ [⟨acctAddr.ToHexString, lockableKey, duration⟩]
      else s.mgr.timers
    let addr := TrimPrefix acctAddr.ToHexString "0x"
    (none, { s with
      mgr := { s.mgr with timers := timers }
      storing := s.storing ++ [(addr, lockableKey)] })

/-- The critical section of `TimedUnlock`: a call that is waiting to store writes its
entry; it then returns nil. -/
def timedUnlockStores (s : Interleaved) (addr : String) (key : Nat) : Interleaved :=
  if (addr, key) ∈ s.storing then
    { s with
      mgr := { s.mgr with unlocked := mapSet s.mgr.unlocked addr key }
      storing := s.storing.erase (addr, key) }
  else s

/-- The critical section of `Lock`, the lookup; when an entry is found `Lock` goes on to
`lockAfter` with duration 0, which runs like the goroutine of a timer. -/
def lockLooksUp (s : Interleaved) (acctAddr : Address) : Interleaved :=
  let addrHex := acctAddr.ToHexString
  match mapGet s.mgr.unlocked addrHex with
  | some lockable =>
    { s with mgr := { s.mgr with timers := s.mgr.timers ++ [⟨addrHex, lockable, 0⟩] } }
  | none => s

/-- The timer of a `lockAfter` execution fires and the comparison `a.unlocked[addr] == key`
is made, without the mutex: the execution ends when the comparison fails and goes on to
the delete when it succeeds. -/
def lockAfterCompares (s : Interleaved) (t : Timer) : Interleaved :=
  if t ∈ s.mgr.timers then
    if mapGet s.mgr.unlocked t.addr = some t.key then
      { s with
        mgr := { s.mgr with timers := s.mgr.timers.erase t }
        deleting := s.deleting ++ [t] }
    else
      { s with mgr := { s.mgr with timers := s.mgr.timers.erase t } }
  else s

/-- The critical section of `lockAfter`: `delete(a.unlocked, addr)`, whatever is stored
under the key string by now. -/
def lockAfterDeletes (s : Interleaved) (t : Timer) : Interleaved :=
  if t ∈ s.deleting then
    { s with
      mgr := { s.mgr with unlocked := mapDelete s.mgr.unlocked t.addr }
      deleting := s.deleting.erase t }
  else s

end Interleaved

/-- One step of one goroutine. `reads` stands for the steps that leave the manager as it
is: `Sign`, `Status`, the lookup of `UnlockAndSign`, the calls into the module.
`UnlockAndSign` of a locked address is its lookup followed by the steps of `TimedUnlock`
with duration 0 and, after the module has signed, those of `Lock`. -/
inductive Event where
  | timedUnlockBegins (acctAddr : Address) (duration : Int)
  | timedUnlockStores (addr : String) (key : Nat)
  | lockLooksUp (acctAddr : Address)
  | lockAfterCompares (t : Timer)
  | lockAfterDeletes (t : Timer)
  | reads

/-- The state after one step. -/
def exec (s : Interleaved) : Event → Interleaved
  | Event.timedUnlockBegins acctAddr duration => (s.timedUnlockBegins acctAddr duration).2
  | Event.timedUnlockStores addr key => s.timedUnlockStores addr key
  | Event.lockLooksUp acctAddr => s.lockLooksUp acctAddr
  | Event.lockAfterCompares t => s.lockAfterCompares t
  | Event.lockAfterDeletes t => s.lockAfterDeletes t
  | Event.reads => s

/-- The state after a sequence of steps, in the order in which they happen. -/
def runEvents (s : Interleaved) (events : List Event) : Interleaved :=
  events.foldl exec s

/-- The step belongs to a call that may lock `acctAddr`: `Lock` of it, or `TimedUnlock` of
it with a positive duration, which arms a timer. -/
def Event.mayLock (acctAddr : Address) : Event → Bool
  | Event.lockLooksUp b => decide (b = acctAddr)
  | Event.timedUnlockBegins b d => decide (b = acctAddr) && decide (d > 0)
  | _ => false

/-- A manager on which no call is between two of its steps. -/
def quiescent (a : accountManager) : Interleaved :=
  { mgr := a, storing := [], deleting := [] }

/-- The address is unlocked, no `lockAfter` execution that still has to compare holds the
entry stored for it, none is about to delete it, and no entry waiting to be stored for it
has a timer. -/
def staysOpen (w : Cryptoki) (acctAddr : Address) (s : Interleaved) : Prop :=
  s.mgr.wrapper = w ∧
  (∃ k, mapGet s.mgr.unlocked acctAddr.ToHexString = some k ∧
    ∀ t ∈ s.mgr.timers, t.addr = acctAddr.ToHexString → t.key ≠ k) ∧
  (∀ t ∈ s.deleting, t.addr ≠ acctAddr.ToHexString) ∧
  (∀ p ∈ s.storing, p.1 = acctAddr.ToHexString →
    ∀ t ∈ s.mgr.timers, t.addr = acctAddr.ToHexString → t.key ≠ p.2)

/-! ## Concrete inputs -/

/-- The address made of nineteen zero bytes and the given last byte. -/
def addrOf (n : Fin 256) : Address :=
  ⟨List.replicate 19 0 ++ [n], by simp⟩

/-- A module that contains exactly the listed addresses and signs by returning the
payload. -/
def moduleOf (addrs : List Address) : Cryptoki where
  Contains := fun a => decide (a ∈ addrs)
  Sign := fun toSign _ => (some toSign, none)

/-- A module that contains exactly the listed addresses and whose signing always fails. -/
def failingModule (addrs : List Address) : Cryptoki where
  Contains := fun a => decide (a ∈ addrs)
  Sign := fun _ _ => (none, some "CKR_DEVICE_ERROR")

/-- The adapter seen through the `Cryptoki` interface, as `NewAccountManager` receives
it. -/
def cryptokiOf (p : pkcs11Wrapper) : Cryptoki where
  Contains := p.Contains
  Sign := p.Sign

/-- A library configuration: the slot label and the PIN are read from `SLOT_LABEL` and
`SLOT_PIN`. -/
def exampleLibrary : Pkcs11Library where
  Path := some ⟨"file", "", "/usr/local/lib/softhsm/libsofthsm2.so"⟩
  SlotLabel := ⟨"env", "SLOT_LABEL", ""⟩
  SlotPin := ⟨"env", "SLOT_PIN", ""⟩

/-- An environment in which `SLOT_LABEL` is `wanted` and nothing else is set. -/
def exampleEnv : Env :=
  fun name => if name = "SLOT_LABEL" then some "wanted" else none

/-- The adapter on a token with the given label and objects, no session opened yet. -/
def wrapperOn (label : String) (objects : List Object) : pkcs11Wrapper where
  Library := exampleLibrary
  Context := tokenCtx label objects
  Session := 0

/-- A token holding one private key, with handle 7, tagged with the hex string of the
address. -/
def tokenWithKey (acctAddr : Address) : List Object :=
  [⟨7, [NewAttributeUint CKA_CLASS CKO_PRIVATE_KEY,
    NewAttributeString CKA_ID acctAddr.ToHexString]⟩]

/-- A device like `tokenCtx` on which opening a search fails. -/
def brokenSearchCtx (label : String) (objects : List Object) : Ctx :=
  { tokenCtx label objects with FindObjectsInit := fun _ _ => some "CKR_DEVICE_ERROR" }

/-- A token holding one public key, with handle 5, whose identifier is the twenty bytes of
the address. -/
def tokenWithPublicKey (acctAddr : Address) : List Object :=
  [⟨5, [NewAttributeUint CKA_CLASS CKO_PUBLIC_KEY,
    NewAttributeBytes CKA_ID (acctAddr.bytes.map (fun b => b.val))]⟩]

/-- Library functions for the examples: `NewAddress` accepts exactly twenty bytes, the
other functions return fixed values. -/
def exampleLib : Lib where
  asn1MarshalOID := ([0x06, 0x05, 0x2b, 0x81, 0x04, 0x00, 0x0a], none)
  ellipticMarshal := fun _ _ => [0x04]
  PublicKeyBytesToAddress := fun _ => (zeroAddress, none)
  NewAddress := fun bs =>
    if h : (bs.map (fun b => Fin.ofNat b)).length = 20 then
      (⟨bs.map (fun b => Fin.ofNat b), h⟩, none)
    else (zeroAddress, some "account address must have length 20 bytes")

/-- A device like `tokenCtx` without objects that accepts every creation and change of
an object and reads back an empty value. -/
def acceptingCtx : Ctx :=
  { tokenCtx "wanted" [] with
    CreateObject := fun _ _ => (9, none)
    SetAttributeValue := fun _ _ _ => none
    GetAttributeValue := fun _ _ _ => ([], none) }

/-- The configuration of the validation tests: the library path parsed from the given
string, the slot label read from `SLOT_LABEL`. -/
def configWithPath (path : String) : Config where
  Library := ⟨some (urlParse path), urlParse "env://SLOT_LABEL", ⟨"", "", ""⟩⟩
  Unlock := []

/-- An environment in which no variable is set. -/
def emptyEnv : Env :=
  fun _ => none

/-- The 32 bytes of the private key used by the tests of the `account` package. -/
def testKeyBytes : List (Fin 256) :=
  [0x1f, 0xe8, 0xf1, 0xad, 0x40, 0x53, 0x32, 0x6d, 0xb2, 0x05, 0x29, 0x25, 0x7a, 0xc9, 0x40,
    0x1f, 0x2e, 0x6c, 0x76, 0x9e, 0xf1, 0xd7, 0x36, 0xb8, 0xc2, 0xf5, 0xab, 0xa5, 0xf7, 0x87,
    0xc7, 0x2b]

/-- A schedule on a fresh manager: `TimedUnlock(addrOf 1, 5)` begins and stores entry 1, its
timer fires and the comparison is made, `TimedUnlock(addrOf 1, 0)` begins and stores entry
2, and then the goroutine of the first timer deletes. -/
def staleDelete : List Event :=
  [Event.timedUnlockBegins (addrOf 1) 5,
    Event.timedUnlockStores (addrOf 1).ToHexString 1,
    Event.lockAfterCompares ⟨(addrOf 1).ToHexString, 1, 5⟩,
    Event.timedUnlockBegins (addrOf 1) 0,
    Event.timedUnlockStores (addrOf 1).ToHexString 2,
    Event.lockAfterDeletes ⟨(addrOf 1).ToHexString, 1, 5⟩]

/-- A schedule on a fresh manager: `TimedUnlock(addrOf 1, 5)` starts its goroutine, the
timer fires and the comparison is made, and only then the entry is stored. -/
def earlyTimer : List Event :=
  [Event.timedUnlockBegins (addrOf 1) 5,
    Event.lockAfterCompares ⟨(addrOf 1).ToHexString, 1, 5⟩,
    Event.timedUnlockStores (addrOf 1).ToHexString 1]

/-- A manager of the given module with nothing unlocked and no goroutine waiting. -/
def freshManager (w : Cryptoki) : accountManager :=
  { wrapper := w, unlocked := [], timers := [] }

/-- After `TimedUnlock(addrOf 1, 0)` on a fresh manager: unlock the same address again for
a positive duration, then let the timer of that second unlock fire. -/
def reUnlockThenExpire : List Op :=
  [Op.timedUnlock (addrOf 1) 5, Op.fire ⟨(addrOf 1).ToHexString, 2, 5⟩]

/-- A manager whose module contains the one address, which is unlocked with entry 1, the
goroutine armed for that entry with the given duration still waiting. -/
def timedManager (acctAddr : Address) (duration : Int) : accountManager :=
  { wrapper := moduleOf [acctAddr]
    unlocked := [(acctAddr.ToHexString, 1)]
    timers := [⟨acctAddr.ToHexString, 1, duration⟩] }

end Pkcs11

namespace Pkcs11

/-! ## Hexadecimal keys -/

theorem hextable_ne_x (n : Nat) : hextable.getD n '0' ≠ 'x' := by
  by_cases h : n < 16
  · interval_cases n <;> decide
  · rw [List.getD_eq_default _ _ (by simpa [hextable] using h)]; decide

theorem hextable_inj (i j : Nat) (hi : i < 16) (hj : j < 16)
    (h : hextable.getD i '0' = hextable.getD j '0') : i = j := by
  interval_cases i <;> interval_cases j <;> first | rfl | (exact absurd h (by decide))

theorem EncodeToString_inj : ∀ (x y : List (Fin 256)), x.length = y.length →
    EncodeToString x = EncodeToString y → x = y := by
  intro x
  induction x with
  | nil =>
    intro y hl _
    cases y with
    | nil => rfl
    | cons _ _ => simp at hl
  | cons b xs ih =>
    intro y hl h
    cases y with
    | nil => simp at hl
    | cons c ys =>
      simp only [EncodeToString, List.cons.injEq] at h
      obtain ⟨h1, h2, h3⟩ := h
      have hb := b.isLt
      have hc := c.isLt
      have e1 := hextable_inj _ _ (by omega) (by omega) h1
      have e2 := hextable_inj _ _ (by omega) (by omega) h2
      have hbc : b = c := by apply Fin.ext; omega
      rw [hbc, ih ys (by simpa using hl) h3]

/-- Two addresses with the same hex string are equal. -/
theorem ToHexString_inj (a b : Address) (h : a.ToHexString = b.ToHexString) : a = b := by
  cases a with
  | mk x hx =>
    cases b with
    | mk y hy =>
      have hxy : x = y := EncodeToString_inj x y (by rw [hx, hy]) (congrArg String.data h)
      subst hxy
      rfl

theorem ToHexString_ne (a b : Address) (h : b ≠ a) : b.ToHexString ≠ a.ToHexString :=
  fun e => h (ToHexString_inj b a e)

/-- The hex string of an address has no `0x` in front, so trimming leaves it as it is: the
key `TimedUnlock` stores under is the key `Sign` and `Lock` look up. -/
theorem TrimPrefix_ToHexString (a : Address) :
    TrimPrefix a.ToHexString "0x" = a.ToHexString := by
  cases a with
  | mk x hx =>
    cases x with
    | nil => simp at hx
    | cons b xs =>
      have hne := hextable_ne_x (b.val % 16)
      have hx2 : ('x' == hextable.getD (b.val % 16) '0') = false :=
        beq_eq_false_iff_ne.mpr (fun h => hne h.symm)
      have hp : List.isPrefixOf "0x".data (EncodeToString (b :: xs)) = false := by
        have hd : "0x".data = ['0', 'x'] := by decide
        rw [hd]
        simp only [EncodeToString, List.isPrefixOf, hx2, Bool.false_and, Bool.and_false]
      unfold TrimPrefix
      rw [if_neg]
      simp only [Address.ToHexString]
      rw [hp]; simp

/-! ## Map lemmas -/

theorem mapDelete_cons (k0 : String) (v : Nat) (rest : List (String × Nat)) (k : String) :
    mapDelete ((k0, v) :: rest) k =
      if k0 = k then mapDelete rest k else (k0, v) :: mapDelete rest k := by
  by_cases h : k0 = k <;> simp [mapDelete, List.filter_cons, h]

theorem mapGet_cons (k0 : String) (v : Nat) (rest : List (String × Nat)) (k : String) :
    mapGet ((k0, v) :: rest) k = if k0 = k then some v else mapGet rest k := rfl

theorem mapGet_mapDelete_self (m : List (String × Nat)) (k : String) :
    mapGet (mapDelete m k) k = none := by
  induction m with
  | nil => rfl
  | cons p rest ih =>
    obtain ⟨k', v⟩ := p
    rw [mapDelete_cons]
    by_cases h : k' = k
    · rw [if_pos h]; exact ih
    · rw [if_neg h, mapGet_cons, if_neg h]; exact ih

theorem mapGet_mapDelete_ne (m : List (String × Nat)) (k k' : String) (h : k' ≠ k) :
    mapGet (mapDelete m k) k' = mapGet m k' := by
  induction m with
  | nil => rfl
  | cons p rest ih =>
    obtain ⟨k0, v⟩ := p
    rw [mapDelete_cons, mapGet_cons]
    by_cases h0 : k0 = k
    · have h1 : k0 ≠ k' := fun e => h (e ▸ h0)
      rw [if_pos h0, if_neg h1]; exact ih
    · rw [if_neg h0, mapGet_cons]
      by_cases h1 : k0 = k'
      · rw [if_pos h1, if_pos h1]
      · rw [if_neg h1, if_neg h1]; exact ih

theorem mapDelete_of_none (m : List (String × Nat)) (k : String) (h : mapGet m k = none) :
    mapDelete m k = m := by
  induction m with
  | nil => rfl
  | cons p rest ih =>
    obtain ⟨k0, v⟩ := p
    rw [mapGet_cons] at h
    rw [mapDelete_cons]
    by_cases h0 : k0 = k
    · rw [if_pos h0] at h; exact absurd h (by simp)
    · rw [if_neg h0] at h
      rw [if_neg h0, ih h]

theorem mapGet_mapSet_self (m : List (String × Nat)) (k : String) (v : Nat) :
    mapGet (mapSet m k v) k = some v := by
  simp [mapSet, mapGet]

theorem mapGet_mapSet_ne (m : List (String × Nat)) (k k' : String) (v : Nat) (h : k' ≠ k) :
    mapGet (mapSet m k v) k' = mapGet m k' := by
  simp only [mapSet, mapGet, if_neg h.symm]
  exact mapGet_mapDelete_ne m k k' h

/-! ## `Sign` -/

/-- C1: `Sign` fails with "account does not exist" when the module does not contain the
address, whether or not it is in the unlocked set; fails with "account locked" when the
module contains it and its hex key is not in the unlocked set; otherwise returns the
result of the module's `Sign`. The manager state is the same afterwards in every case. -/
theorem Sign_result (a : accountManager) (acctAddr : Address) (toSign : Bytes) :
    (a.wrapper.Contains acctAddr = false →
      (a.Sign acctAddr toSign).1 = (none, some "account does not exist")) ∧
    (a.wrapper.Contains acctAddr = true → mapGet a.unlocked acctAddr.ToHexString = none →
      (a.Sign acctAddr toSign).1 = (none, some "account locked")) ∧
    (a.wrapper.Contains acctAddr = true → mapGet a.unlocked acctAddr.ToHexString ≠ none →
      (a.Sign acctAddr toSign).1 = a.wrapper.Sign toSign acctAddr) ∧
    (a.Sign acctAddr toSign).2 = a := by
  refine ⟨?_, ?_, ?_, ?_⟩
  · intro h
    simp [accountManager.Sign, accountManager.Contains, h]
  · intro h hn
    simp [accountManager.Sign, accountManager.Contains, h, hn]
  · intro h hn
    obtain ⟨k, hk⟩ := Option.ne_none_iff_exists'.mp hn
    simp [accountManager.Sign, accountManager.Contains, h, hk]
  · unfold accountManager.Sign
    split
    · rfl
    · dsimp only; split <;> rfl

/-- Witness of C1: one manager for each of the three outcomes. -/
theorem Sign_result_witness :
    ((freshManager (moduleOf [])).Sign (addrOf 1) [1]).1
      = (none, some "account does not exist") ∧
    ((freshManager (moduleOf [addrOf 1])).Sign (addrOf 1) [1]).1
      = (none, some "account locked") ∧
    (({ freshManager (moduleOf [addrOf 1]) with
        unlocked := [((addrOf 1).ToHexString, 1)] } : accountManager).Sign (addrOf 1) [1]).1
      = (some [1], none) :=
  ⟨(Sign_result (freshManager (moduleOf [])) (addrOf 1) [1]).1 (by decide),
   (Sign_result (freshManager (moduleOf [addrOf 1])) (addrOf 1) [1]).2.1
     (by decide) (by decide),
   (Sign_result ({ freshManager (moduleOf [addrOf 1]) with
        unlocked := [((addrOf 1).ToHexString, 1)] } : accountManager) (addrOf 1) [1]).2.2.1
     (by decide) (by decide)⟩

/-! ## Allocation -/

theorem le_foldr_max (l : List Nat) (k : Nat) (h : k ∈ l) : k ≤ l.foldr max 0 := by
  induction l with
  | nil => simp at h
  | cons x xs ih =>
    simp only [List.foldr_cons]
    rcases List.mem_cons.mp h with e | e
    · rw [e]; exact le_max_left _ _
    · exact le_trans (ih e) (le_max_right _ _)

theorem mem_of_mapGet (m : List (String × Nat)) (k : String) (v : Nat)
    (h : mapGet m k = some v) : (k, v) ∈ m := by
  induction m with
  | nil => simp [mapGet] at h
  | cons p rest ih =>
    obtain ⟨k0, v0⟩ := p
    rw [mapGet_cons] at h
    by_cases h0 : k0 = k
    · rw [if_pos h0] at h
      have hv : v0 = v := Option.some.inj h
      rw [h0, hv]; exact List.mem_cons_self _ _
    · rw [if_neg h0] at h
      exact List.mem_cons_of_mem _ (ih h)

/-- A new `lockableKey` is not the one stored under any key of the map. -/
theorem newLockableKey_ne_stored (a : accountManager) (k : String) (v : Nat)
    (h : mapGet a.unlocked k = some v) : v ≠ a.newLockableKey := by
  have hm : v ∈ a.liveKeys := by
    unfold accountManager.liveKeys
    exact List.mem_append_left _ (List.mem_map.mpr ⟨(k, v), mem_of_mapGet _ _ _ h, rfl⟩)
  have := le_foldr_max _ _ hm
  unfold accountManager.newLockableKey
  omega

/-- A new `lockableKey` is not the one a waiting goroutine holds. -/
theorem newLockableKey_ne_timer (a : accountManager) (t : Timer) (h : t ∈ a.timers) :
    t.key ≠ a.newLockableKey := by
  have hm : t.key ∈ a.liveKeys := by
    unfold accountManager.liveKeys
    exact List.mem_append_right _ (List.mem_map.mpr ⟨t, h, rfl⟩)
  have := le_foldr_max _ _ hm
  unfold accountManager.newLockableKey
  omega

/-! ## Shape of the transitions -/

theorem TimedUnlock_of_contains (a : accountManager) (acctAddr : Address) (d : Int)
    (h : a.wrapper.Contains acctAddr = true) :
    a.TimedUnlock acctAddr d = (none, { a with
      unlocked := mapSet a.unlocked acctAddr.ToHexString a.newLockableKey
      timers := if d > 0 then a.timers ++ [⟨acctAddr.ToHexString, a.newLockableKey, d⟩]
        else a.timers }) := by
  simp [accountManager.TimedUnlock, accountManager.Contains, h, TrimPrefix_ToHexString]

theorem TimedUnlock_of_not_contains (a : accountManager) (acctAddr : Address) (d : Int)
    (h : a.wrapper.Contains acctAddr = false) :
    a.TimedUnlock acctAddr d = (some "account does not exist", a) := by
  simp [accountManager.TimedUnlock, accountManager.Contains, h]

theorem Lock_eq (a : accountManager) (acctAddr : Address) :
    a.Lock acctAddr = { a with unlocked := mapDelete a.unlocked acctAddr.ToHexString } := by
  cases hg : mapGet a.unlocked acctAddr.ToHexString with
  | none =>
    have h1 : a.Lock acctAddr = a := by
      unfold accountManager.Lock
      simp only [hg]
    rw [h1, mapDelete_of_none _ _ hg]
  | some k =>
    have h1 : a.Lock acctAddr = a.lockAfter acctAddr.ToHexString k := by
      unfold accountManager.Lock
      simp only [hg]
    rw [h1]
    simp only [accountManager.lockAfter, hg, if_true]

theorem lockAfter_wrapper (a : accountManager) (addr : String) (key : Nat) :
    (a.lockAfter addr key).wrapper = a.wrapper := by
  unfold accountManager.lockAfter; split <;> rfl

theorem lockAfter_timers (a : accountManager) (addr : String) (key : Nat) :
    (a.lockAfter addr key).timers = a.timers := by
  unfold accountManager.lockAfter; split <;> rfl

theorem lockAfter_same (a : accountManager) (addr : String) (key : Nat)
    (h : mapGet a.unlocked addr = some key) :
    (a.lockAfter addr key).unlocked = mapDelete a.unlocked addr := by
  simp [accountManager.lockAfter, h]

theorem lockAfter_other (a : accountManager) (addr : String) (key : Nat)
    (h : mapGet a.unlocked addr ≠ some key) :
    (a.lockAfter addr key).unlocked = a.unlocked := by
  simp [accountManager.lockAfter, h]

theorem lockAfter_frame (a : accountManager) (addr : String) (key : Nat) (k : String)
    (h : k ≠ addr) :
    mapGet (a.lockAfter addr key).unlocked k = mapGet a.unlocked k := by
  unfold accountManager.lockAfter
  split
  · exact mapGet_mapDelete_ne _ _ _ h
  · rfl

end Pkcs11

namespace Pkcs11

/-! ## Timer expiry -/

theorem Sign_of_locked (a : accountManager) (acctAddr : Address) (toSign : Bytes)
    (hc : a.wrapper.Contains acctAddr = true)
    (hn : mapGet a.unlocked acctAddr.ToHexString = none) :
    (a.Sign acctAddr toSign).1 = (none, some "account locked") := by
  simp [accountManager.Sign, accountManager.Contains, hc, hn]

theorem Sign_of_unlocked (a : accountManager) (acctAddr : Address) (toSign : Bytes) (k : Nat)
    (hc : a.wrapper.Contains acctAddr = true)
    (hk : mapGet a.unlocked acctAddr.ToHexString = some k) :
    (a.Sign acctAddr toSign).1 = a.wrapper.Sign toSign acctAddr := by
  simp [accountManager.Sign, accountManager.Contains, hc, hk]

theorem timerFires_wrapper (a : accountManager) (t : Timer) :
    (a.timerFires t).wrapper = a.wrapper := by
  unfold accountManager.timerFires
  split
  · rw [lockAfter_wrapper]
  · rfl

theorem timerFires_same (a : accountManager) (t : Timer) (hm : t ∈ a.timers)
    (h : mapGet a.unlocked t.addr = some t.key) :
    (a.timerFires t).unlocked = mapDelete a.unlocked t.addr := by
  unfold accountManager.timerFires
  rw [if_pos hm]
  exact lockAfter_same _ _ _ h

theorem timerFires_other (a : accountManager) (t : Timer)
    (h : mapGet a.unlocked t.addr ≠ some t.key) :
    (a.timerFires t).unlocked = a.unlocked := by
  unfold accountManager.timerFires
  split
  · exact lockAfter_other _ _ _ h
  · rfl

theorem timerFires_frame (a : accountManager) (t : Timer) (k : String) (h : k ≠ t.addr) :
    mapGet (a.timerFires t).unlocked k = mapGet a.unlocked k := by
  unfold accountManager.timerFires
  split
  · exact lockAfter_frame _ _ _ _ h
  · rfl

theorem timerFires_timers (a : accountManager) (t t' : Timer)
    (h : t' ∈ (a.timerFires t).timers) : t' ∈ a.timers := by
  unfold accountManager.timerFires at h
  split at h
  · rw [lockAfter_timers] at h
    exact List.mem_of_mem_erase h
  · exact h

/-- Timer expiry when every call and every firing runs to its end before the next begins:
when the timer of a waiting `lockAfter` goroutine for the address fires, the entry
of the address is removed if the entry stored at that moment is the one the timer was
armed for, and otherwise the unlocked set is unchanged; the entries of other addresses
are unchanged. After `TimedUnlock` with a positive duration and a second `TimedUnlock`,
with or without a `Lock` in between, the firing of the first timer leaves the newer entry
stored; with nothing in between, `Sign` after the firing fails with "account locked".
The theorem `lockAfter_races` shows two interleavings in which this fails. -/
theorem timer_expiry (a : accountManager) (acctAddr : Address) (t : Timer) (d1 d2 : Int)
    (toSign : Bytes) :
    (t ∈ a.timers → t.addr = acctAddr.ToHexString →
      (mapGet a.unlocked acctAddr.ToHexString = some t.key →
        mapGet (a.timerFires t).unlocked acctAddr.ToHexString = none) ∧
      (mapGet a.unlocked acctAddr.ToHexString ≠ some t.key →
        (a.timerFires t).unlocked = a.unlocked) ∧
      (∀ b : Address, b ≠ acctAddr →
        mapGet (a.timerFires t).unlocked b.ToHexString = mapGet a.unlocked b.ToHexString)) ∧
    (a.wrapper.Contains acctAddr = true → d1 > 0 →
      (⟨acctAddr.ToHexString, a.newLockableKey, d1⟩ : Timer)
          ∈ (a.TimedUnlock acctAddr d1).2.timers ∧
      mapGet (a.TimedUnlock acctAddr d1).2.unlocked acctAddr.ToHexString
          = some a.newLockableKey ∧
      mapGet ((((a.TimedUnlock acctAddr d1).2.TimedUnlock acctAddr d2).2).timerFires
            ⟨acctAddr.ToHexString, a.newLockableKey, d1⟩).unlocked acctAddr.ToHexString
          = some (a.TimedUnlock acctAddr d1).2.newLockableKey ∧
      mapGet (((((a.TimedUnlock acctAddr d1).2.Lock acctAddr).TimedUnlock acctAddr d2).2).timerFires
            ⟨acctAddr.ToHexString, a.newLockableKey, d1⟩).unlocked acctAddr.ToHexString
          = some ((a.TimedUnlock acctAddr d1).2.Lock acctAddr).newLockableKey ∧
      ((((a.TimedUnlock acctAddr d1).2).timerFires
            ⟨acctAddr.ToHexString, a.newLockableKey, d1⟩).Sign acctAddr toSign).1
          = (none, some "account locked")) := by
  constructor
  · intro hm ha
    refine ⟨?_, ?_, ?_⟩
    · intro hs
      rw [timerFires_same a t hm (by rw [ha]; exact hs), ha]
      exact mapGet_mapDelete_self _ _
    · intro hs
      exact timerFires_other a t (by rw [ha]; exact hs)
    · intro b hb
      exact timerFires_frame a t _ (by rw [ha]; exact ToHexString_ne _ _ hb)
  · intro hc hd
    have e1 := TimedUnlock_of_contains a acctAddr d1 hc
    rw [if_pos hd] at e1
    -- the state after the first unlock
    generalize ha1 : (a.TimedUnlock acctAddr d1).2 = a1
    rw [e1] at ha1
    simp only at ha1
    have hw1 : a1.wrapper = a.wrapper := by rw [← ha1]
    have hu1 : a1.unlocked = mapSet a.unlocked acctAddr.ToHexString a.newLockableKey := by
      rw [← ha1]
    have ht1 : a1.timers = a.timers ++ [⟨acctAddr.ToHexString, a.newLockableKey, d1⟩] := by
      rw [← ha1]
    have hmem1 : (⟨acctAddr.ToHexString, a.newLockableKey, d1⟩ : Timer) ∈ a1.timers := by
      rw [ht1]; simp
    have hget1 : mapGet a1.unlocked acctAddr.ToHexString = some a.newLockableKey := by
      rw [hu1]; exact mapGet_mapSet_self _ _ _
    have hc1 : a1.wrapper.Contains acctAddr = true := by rw [hw1]; exact hc
    refine ⟨hmem1, hget1, ?_, ?_, ?_⟩
    · -- re-unlock, then the first timer fires
      have e2 := TimedUnlock_of_contains a1 acctAddr d2 hc1
      generalize ha2 : (a1.TimedUnlock acctAddr d2).2 = a2
      rw [e2] at ha2
      simp only at ha2
      have hu2 : a2.unlocked = mapSet a1.unlocked acctAddr.ToHexString a1.newLockableKey := by
        rw [← ha2]
      have hmem2 : (⟨acctAddr.ToHexString, a.newLockableKey, d1⟩ : Timer) ∈ a2.timers := by
        rw [← ha2]
        simp only
        split
        · exact List.mem_append_left _ hmem1
        · exact hmem1
      have hget2 : mapGet a2.unlocked acctAddr.ToHexString = some a1.newLockableKey := by
        rw [hu2]; exact mapGet_mapSet_self _ _ _
      have hne : a.newLockableKey ≠ a1.newLockableKey :=
        newLockableKey_ne_stored a1 _ _ hget1
      rw [timerFires_other a2 _ (by
        show mapGet a2.unlocked acctAddr.ToHexString ≠ some a.newLockableKey
        rw [hget2]
        intro h
        exact hne (Option.some.inj h).symm)]
      exact hget2
    · -- Lock, re-unlock, then the first timer fires
      generalize hal : a1.Lock acctAddr = al
      have hle := Lock_eq a1 acctAddr
      rw [hal] at hle
      have hwl : al.wrapper = a1.wrapper := by rw [hle]
      have htl : al.timers = a1.timers := by rw [hle]
      have hcl : al.wrapper.Contains acctAddr = true := by rw [hwl]; exact hc1
      have hmeml : (⟨acctAddr.ToHexString, a.newLockableKey, d1⟩ : Timer) ∈ al.timers := by
        rw [htl]; exact hmem1
      have e2 := TimedUnlock_of_contains al acctAddr d2 hcl
      generalize ha2 : (al.TimedUnlock acctAddr d2).2 = a2
      rw [e2] at ha2
      simp only at ha2
      have hu2 : a2.unlocked = mapSet al.unlocked acctAddr.ToHexString al.newLockableKey := by
        rw [← ha2]
      have hmem2 : (⟨acctAddr.ToHexString, a.newLockableKey, d1⟩ : Timer) ∈ a2.timers := by
        rw [← ha2]
        simp only
        split
        · exact List.mem_append_left _ hmeml
        · exact hmeml
      have hget2 : mapGet a2.unlocked acctAddr.ToHexString = some al.newLockableKey := by
        rw [hu2]; exact mapGet_mapSet_self _ _ _
      have hne : a.newLockableKey ≠ al.newLockableKey :=
        newLockableKey_ne_timer al _ hmeml
      rw [timerFires_other a2 _ (by
        show mapGet a2.unlocked acctAddr.ToHexString ≠ some a.newLockableKey
        rw [hget2]
        intro h
        exact hne (Option.some.inj h).symm)]
      exact hget2
    · -- nothing in between: the firing locks the account
      have hs := timerFires_same a1 ⟨acctAddr.ToHexString, a.newLockableKey, d1⟩ hmem1 hget1
      have hw := timerFires_wrapper a1 ⟨acctAddr.ToHexString, a.newLockableKey, d1⟩
      refine Sign_of_locked _ acctAddr toSign ?_ ?_
      · rw [hw]; exact hc1
      · rw [hs]; exact mapGet_mapDelete_self _ _

/-- An instance of `timer_expiry`: a manager whose only entry is the one its only timer was
armed for. -/
theorem timer_expiry_witness :
    mapGet ((timedManager (addrOf 1) 5).timerFires ⟨(addrOf 1).ToHexString, 1, 5⟩).unlocked
        (addrOf 1).ToHexString = none ∧
    ((((timedManager (addrOf 1) 5).TimedUnlock (addrOf 1) 7).2.timerFires
        ⟨(addrOf 1).ToHexString, (timedManager (addrOf 1) 5).newLockableKey, 7⟩).Sign
        (addrOf 1) [1]).1 = (none, some "account locked") :=
  ⟨((timer_expiry (timedManager (addrOf 1) 5) (addrOf 1) ⟨(addrOf 1).ToHexString, 1, 5⟩ 7 0
      [1]).1 (by decide) (by decide)).1 (by decide),
   ((timer_expiry (timedManager (addrOf 1) 5) (addrOf 1) ⟨(addrOf 1).ToHexString, 1, 5⟩ 7 0
      [1]).2 (by decide) (by decide)).2.2.2.2⟩

end Pkcs11

namespace Pkcs11

/-! ## `UnlockAndSign` -/

theorem UnlockAndSign_result (a : accountManager) (acctAddr : Address) (toSign : Bytes)
    (hc : a.wrapper.Contains acctAddr = true) :
    (a.UnlockAndSign acctAddr toSign).1 = a.wrapper.Sign toSign acctAddr := by
  unfold accountManager.UnlockAndSign
  simp only [accountManager.Contains, hc, Bool.not_true, Bool.false_eq_true, if_false]
  cases hg : mapGet a.unlocked acctAddr.ToHexString with
  | some k => simp
  | none =>
    simp only [Option.isSome_none, Bool.not_false, if_true]
    rw [TimedUnlock_of_contains a acctAddr 0 hc]

theorem UnlockAndSign_state (a : accountManager) (acctAddr : Address) (toSign : Bytes) :
    (a.UnlockAndSign acctAddr toSign).2.wrapper = a.wrapper ∧
    (a.UnlockAndSign acctAddr toSign).2.unlocked = a.unlocked ∧
    (a.UnlockAndSign acctAddr toSign).2.timers = a.timers := by
  unfold accountManager.UnlockAndSign
  cases hc : a.wrapper.Contains acctAddr with
  | false => simp [accountManager.Contains, hc]
  | true =>
    simp only [accountManager.Contains, hc, Bool.not_true, Bool.false_eq_true, if_false]
    cases hg : mapGet a.unlocked acctAddr.ToHexString with
    | some k => simp
    | none =>
      simp only [Option.isSome_none, Bool.not_false, if_true]
      rw [TimedUnlock_of_contains a acctAddr 0 hc]
      simp only [Lock_eq]
      refine ⟨trivial, ?_, ?_⟩
      · simp only [mapSet, mapDelete_cons, if_true, mapDelete_of_none _ _ hg]
      · simp

/-- C5: when the module contains the address, `UnlockAndSign` returns the result of the
module's `Sign` and leaves the unlocked set, and the pending timers, as they were before
the call, whatever the signing outcome; when the module does not contain the address, it
fails with "account does not exist" and the unlocked set is unchanged. -/
theorem UnlockAndSign_frame (a : accountManager) (acctAddr : Address) (toSign : Bytes) :
    (a.wrapper.Contains acctAddr = true →
      (a.UnlockAndSign acctAddr toSign).1 = a.wrapper.Sign toSign acctAddr ∧
      (a.UnlockAndSign acctAddr toSign).2.unlocked = a.unlocked ∧
      (a.UnlockAndSign acctAddr toSign).2.timers = a.timers) ∧
    (a.wrapper.Contains acctAddr = false →
      (a.UnlockAndSign acctAddr toSign).1 = (none, some "account does not exist") ∧
      (a.UnlockAndSign acctAddr toSign).2.unlocked = a.unlocked) := by
  constructor
  · intro hc
    exact ⟨UnlockAndSign_result a acctAddr toSign hc,
      (UnlockAndSign_state a acctAddr toSign).2.1, (UnlockAndSign_state a acctAddr toSign).2.2⟩
  · intro hc
    refine ⟨?_, (UnlockAndSign_state a acctAddr toSign).2.1⟩
    simp [accountManager.UnlockAndSign, accountManager.Contains, hc]

/-- Witness of C5: a locked account whose signing fails, an account that is already
unlocked with a timer pending, and an address the module does not contain. -/
theorem UnlockAndSign_frame_witness :
    (((freshManager (failingModule [addrOf 1])).UnlockAndSign (addrOf 1) [1]).1
        = (none, some "CKR_DEVICE_ERROR") ∧
      ((freshManager (failingModule [addrOf 1])).UnlockAndSign (addrOf 1) [1]).2.unlocked
        = []) ∧
    (((timedManager (addrOf 1) 5).UnlockAndSign (addrOf 1) [1]).2.unlocked
        = [((addrOf 1).ToHexString, 1)]) ∧
    (((timedManager (addrOf 1) 5).UnlockAndSign (addrOf 2) [1]).1
        = (none, some "account does not exist")) :=
  ⟨⟨((UnlockAndSign_frame (freshManager (failingModule [addrOf 1])) (addrOf 1) [1]).1
      (by decide)).1,
    ((UnlockAndSign_frame (freshManager (failingModule [addrOf 1])) (addrOf 1) [1]).1
      (by decide)).2.1⟩,
   ((UnlockAndSign_frame (timedManager (addrOf 1) 5) (addrOf 1) [1]).1 (by decide)).2.1,
   ((UnlockAndSign_frame (timedManager (addrOf 1) 5) (addrOf 2) [1]).2 (by decide)).1⟩

end Pkcs11

namespace Pkcs11

/-! ## Unlocking without expiry -/

theorem Sign_state (a : accountManager) (acctAddr : Address) (toSign : Bytes) :
    (a.Sign acctAddr toSign).2 = a := by
  unfold accountManager.Sign
  split
  · rfl
  · dsimp only; split <;> rfl

theorem heldOpen_step (w : Cryptoki) (acctAddr : Address) (s : accountManager) (op : Op)
    (h : heldOpen w acctAddr s) (h1 : op.isLockOf acctAddr = false)
    (h2 : op.armsTimerFor acctAddr = false) : heldOpen w acctAddr (step s op) := by
  obtain ⟨hw, k, hk, ht⟩ := h
  cases op with
  | sign b p =>
    show heldOpen w acctAddr (s.Sign b p).2
    rw [Sign_state]; exact ⟨hw, k, hk, ht⟩
  | unlockAndSign b p =>
    show heldOpen w acctAddr (s.UnlockAndSign b p).2
    obtain ⟨e1, e2, e3⟩ := UnlockAndSign_state s b p
    refine ⟨by rw [e1]; exact hw, k, by rw [e2]; exact hk, ?_⟩
    rw [e3]; exact ht
  | timedUnlock b d =>
    show heldOpen w acctAddr (s.TimedUnlock b d).2
    cases hc : s.wrapper.Contains b with
    | false =>
      rw [TimedUnlock_of_not_contains s b d hc]; exact ⟨hw, k, hk, ht⟩
    | true =>
      rw [TimedUnlock_of_contains s b d hc]
      by_cases hb : b = acctAddr
      · have hd : ¬ d > 0 := by
          intro hd
          simp [Op.armsTimerFor, hb, hd] at h2
        refine ⟨hw, s.newLockableKey, ?_, ?_⟩
        · simp only [hb]; exact mapGet_mapSet_self _ _ _
        · simp only [if_neg hd]
          intro t htm
          exact newLockableKey_ne_timer s t htm
      · refine ⟨hw, k, ?_, ?_⟩
        · simp only
          rw [mapGet_mapSet_ne _ _ _ _ (ToHexString_ne _ _ (Ne.symm hb))]
          exact hk
        · simp only
          intro t htm
          split at htm
          · rcases List.mem_append.mp htm with hm | hm
            · exact ht t hm
            · rw [List.mem_singleton] at hm
              rw [hm]
              exact (newLockableKey_ne_stored s _ _ hk).symm
          · exact ht t htm
  | lock b =>
    show heldOpen w acctAddr (s.Lock b)
    have hb : b ≠ acctAddr := by
      intro hb
      simp [Op.isLockOf, hb] at h1
    rw [Lock_eq]
    refine ⟨hw, k, ?_, ht⟩
    simp only
    rw [mapGet_mapDelete_ne _ _ _ (ToHexString_ne _ _ (Ne.symm hb))]
    exact hk
  | fire t =>
    show heldOpen w acctAddr (s.timerFires t)
    refine ⟨by rw [timerFires_wrapper]; exact hw, k, ?_, ?_⟩
    · by_cases hm : t ∈ s.timers
      · by_cases ha : acctAddr.ToHexString = t.addr
        · rw [timerFires_other s t (by
            rw [← ha, hk]
            intro e
            exact ht t hm (Option.some.inj e).symm)]
          exact hk
        · rw [timerFires_frame s t _ ha]; exact hk
      · simp only [accountManager.timerFires, hm, if_false]; exact hk
    · intro t' hm'
      exact ht t' (timerFires_timers s t t' hm')
  | other => exact ⟨hw, k, hk, ht⟩

theorem heldOpen_run (w : Cryptoki) (acctAddr : Address) (ops : List Op) :
    ∀ s : accountManager, heldOpen w acctAddr s →
      (∀ op ∈ ops, op.isLockOf acctAddr = false ∧ op.armsTimerFor acctAddr = false) →
      heldOpen w acctAddr (run s ops) := by
  induction ops with
  | nil => intro s h _; exact h
  | cons op rest ih =>
    intro s h hops
    have ho := hops op (List.mem_cons_self _ _)
    exact ih (step s op) (heldOpen_step w acctAddr s op h ho.1 ho.2)
      (fun o hm => hops o (List.mem_cons_of_mem _ hm))

/-- Unlocking without expiry when every call and every firing runs to its end before the
next begins: for an address the module contains, `TimedUnlock` with a duration that is
not positive returns nil, arms no timer (the pending timers are the same and none holds
the new entry), stores the entry under the key `Sign` and `Lock` look up, and a `Sign`
that follows returns the module's signing result. The address then stays unlocked, and
`Sign` keeps returning the module's result, across every sequence of manager operations
and timer firings that contains neither `Lock` of the address nor a `TimedUnlock` of the
address with a positive duration; the firing of a timer armed earlier does not remove
it. -/
theorem TimedUnlock_without_expiry (a : accountManager) (acctAddr : Address) (d : Int)
    (toSign : Bytes) (ops : List Op)
    (hc : a.wrapper.Contains acctAddr = true) (hd : d ≤ 0)
    (hops : ∀ op ∈ ops, op.isLockOf acctAddr = false ∧ op.armsTimerFor acctAddr = false) :
    (a.TimedUnlock acctAddr d).1 = none ∧
    (a.TimedUnlock acctAddr d).2.timers = a.timers ∧
    (∀ t ∈ (a.TimedUnlock acctAddr d).2.timers, t.key ≠ a.newLockableKey) ∧
    TrimPrefix acctAddr.ToHexString "0x" = acctAddr.ToHexString ∧
    mapGet (a.TimedUnlock acctAddr d).2.unlocked acctAddr.ToHexString
      = some a.newLockableKey ∧
    ((a.TimedUnlock acctAddr d).2.Sign acctAddr toSign).1 = a.wrapper.Sign toSign acctAddr ∧
    mapGet (run (a.TimedUnlock acctAddr d).2 ops).unlocked acctAddr.ToHexString ≠ none ∧
    ((run (a.TimedUnlock acctAddr d).2 ops).Sign acctAddr toSign).1
      = a.wrapper.Sign toSign acctAddr := by
  have hd' : ¬ d > 0 := not_lt.mpr hd
  have e := TimedUnlock_of_contains a acctAddr d hc
  rw [if_neg hd'] at e
  have hget : mapGet (a.TimedUnlock acctAddr d).2.unlocked acctAddr.ToHexString
      = some a.newLockableKey := by
    rw [e]; exact mapGet_mapSet_self _ _ _
  have htm : (a.TimedUnlock acctAddr d).2.timers = a.timers := by rw [e]
  have hw : (a.TimedUnlock acctAddr d).2.wrapper = a.wrapper := by rw [e]
  have hfresh : ∀ t ∈ (a.TimedUnlock acctAddr d).2.timers, t.key ≠ a.newLockableKey := by
    rw [htm]; exact fun t ht => newLockableKey_ne_timer a t ht
  have h0 : heldOpen a.wrapper acctAddr (a.TimedUnlock acctAddr d).2 :=
    ⟨hw, a.newLockableKey, hget, hfresh⟩
  obtain ⟨hwr, k, hk, _⟩ := heldOpen_run a.wrapper acctAddr ops _ h0 hops
  refine ⟨by rw [e], htm, hfresh, TrimPrefix_ToHexString acctAddr, hget, ?_, ?_, ?_⟩
  · have := Sign_of_unlocked (a.TimedUnlock acctAddr d).2 acctAddr toSign _
      (by rw [hw]; exact hc) hget
    rw [this, hw]
  · rw [hk]; simp
  · have := Sign_of_unlocked (run (a.TimedUnlock acctAddr d).2 ops) acctAddr toSign k
      (by rw [hwr]; exact hc) hk
    rw [this, hwr]

/-- An instance of `TimedUnlock_without_expiry`: the address is unlocked with a timer
pending, is unlocked again with duration 0, and then the old timer fires, the manager signs, another address is locked
and the address is unlocked once more with a negative duration. -/
theorem TimedUnlock_without_expiry_witness :
    ((run ((timedManager (addrOf 1) 5).TimedUnlock (addrOf 1) 0).2
        [Op.fire ⟨(addrOf 1).ToHexString, 1, 5⟩, Op.unlockAndSign (addrOf 1) [2],
          Op.lock (addrOf 2), Op.timedUnlock (addrOf 1) (-3)]).Sign (addrOf 1) [1]).1
      = (some [1], none) :=
  (TimedUnlock_without_expiry (timedManager (addrOf 1) 5) (addrOf 1) 0 [1]
    [Op.fire ⟨(addrOf 1).ToHexString, 1, 5⟩, Op.unlockAndSign (addrOf 1) [2],
      Op.lock (addrOf 2), Op.timedUnlock (addrOf 1) (-3)]
    (by decide) (by decide) (by decide)).2.2.2.2.2.2.2

/-- C2 as stated fails: after `TimedUnlock` with duration 0, a second `TimedUnlock` of the
same address with a positive duration followed by the firing of its timer is a sequence
without any `Lock`, and it leaves the address locked. -/
theorem TimedUnlock_without_expiry_counterexample :
    ((freshManager (moduleOf [addrOf 1])).TimedUnlock (addrOf 1) 0).1 = none ∧
    (∀ op ∈ reUnlockThenExpire, Op.isLockOf (addrOf 1) op = false) ∧
    mapGet (run ((freshManager (moduleOf [addrOf 1])).TimedUnlock (addrOf 1) 0).2
        reUnlockThenExpire).unlocked (addrOf 1).ToHexString = none ∧
    ((run ((freshManager (moduleOf [addrOf 1])).TimedUnlock (addrOf 1) 0).2
        reUnlockThenExpire).Sign (addrOf 1) [1]).1 = (none, some "account locked") := by
  refine ⟨by decide, by decide, by decide, by decide⟩

end Pkcs11

namespace Pkcs11

/-! ## `Lock` -/

theorem Lock_removes (a : accountManager) (acctAddr : Address) :
    mapGet (a.Lock acctAddr).unlocked acctAddr.ToHexString = none := by
  rw [Lock_eq]; exact mapGet_mapDelete_self _ _

theorem Lock_unlocked_of_locked (a : accountManager) (acctAddr : Address)
    (h : mapGet a.unlocked acctAddr.ToHexString = none) :
    (a.Lock acctAddr).unlocked = a.unlocked := by
  rw [Lock_eq]; exact mapDelete_of_none _ _ h

theorem Lock_frame (a : accountManager) (acctAddr b : Address) (h : b ≠ acctAddr) :
    mapGet (a.Lock acctAddr).unlocked b.ToHexString = mapGet a.unlocked b.ToHexString := by
  rw [Lock_eq]; exact mapGet_mapDelete_ne _ _ _ (ToHexString_ne _ _ h)

/-- The method `Lock` never ends a waiting goroutine. -/
theorem Lock_timers (a : accountManager) (acctAddr : Address) :
    (a.Lock acctAddr).timers = a.timers := by
  rw [Lock_eq]

/-- C4 at a failing input: on a fresh manager, `TimedUnlock` of an address for a positive
duration followed by `Lock` of it removes the entry, and the goroutine armed for that
entry is still waiting when `Lock` has returned. -/
theorem Lock_leaves_timer_pending :
    mapGet (((freshManager (moduleOf [addrOf 1])).TimedUnlock (addrOf 1) 5).2.Lock
        (addrOf 1)).unlocked (addrOf 1).ToHexString = none ∧
    (((freshManager (moduleOf [addrOf 1])).TimedUnlock (addrOf 1) 5).2.Lock
        (addrOf 1)).timers = [⟨(addrOf 1).ToHexString, 1, 5⟩] := by
  refine ⟨by decide, by decide⟩

/-! ## `NewAccountManager` -/

/-- C6 at a failing input: with the adapter on an empty token and the one entry
`not-an-address` to unlock, the entry does not parse, and the manager returned has the
zero address unlocked. -/
theorem NewAccountManager_unlocks_zero_address :
    (NewAddressFromHexString "not-an-address").2 ≠ none ∧
    (NewAccountManager (cryptokiOf (wrapperOn "wanted" []))
        ⟨exampleLibrary, ["not-an-address"]⟩).2 = none ∧
    (NewAccountManager (cryptokiOf (wrapperOn "wanted" []))
        ⟨exampleLibrary, ["not-an-address"]⟩).1.unlocked
      = [("0000000000000000000000000000000000000000", 1)] := by
  refine ⟨by decide, by decide, by decide⟩

/-! ## `Contains` of the adapter -/

/-- The adapter's `Contains` is true exactly when the lookup of the private key fails. -/
theorem Contains_iff_lookup_fails (p : pkcs11Wrapper) (acctAddr : Address) :
    p.Contains acctAddr = true ↔ (p.findPrivateKey acctAddr).2 ≠ none := by
  simp [pkcs11Wrapper.Contains]

/-- C7 at a failing input: on a token that holds a private key tagged with the address,
the lookup succeeds and `Contains` is false; on an empty token the lookup fails with
"key not found" and `Contains` is true. -/
theorem Contains_inverted :
    (wrapperOn "wanted" (tokenWithKey (addrOf 1))).findPrivateKey (addrOf 1) = (7, none) ∧
    (wrapperOn "wanted" (tokenWithKey (addrOf 1))).Contains (addrOf 1) = false ∧
    (wrapperOn "wanted" []).findPrivateKey (addrOf 1) = (0, some "key not found") ∧
    (wrapperOn "wanted" []).Contains (addrOf 1) = true := by
  refine ⟨by decide, by decide, by decide, by decide⟩

end Pkcs11

namespace Pkcs11

/-! ## `OpenSession` -/

theorem openSlots_no_match (p : pkcs11Wrapper) (env : Env) (slots : List Nat) :
    ∀ (session : Nat) (calls : List Call),
      (∀ s ∈ slots, (p.Context.GetTokenInfo s).2 ≠ none ∨
        (p.Context.GetTokenInfo s).1 ≠ p.Library.SlotLabel.Get env) →
      p.openSlots env slots session calls
        = (none, session, calls ++ slots.map Call.GetTokenInfo) := by
  induction slots with
  | nil => intro session calls _; simp [pkcs11Wrapper.openSlots]
  | cons s rest ih =>
    intro session calls h
    have hs := h s (List.mem_cons_self _ _)
    have hc : ((p.Context.GetTokenInfo s).2.isSome ||
        p.Library.SlotLabel.Get env != (p.Context.GetTokenInfo s).1) = true := by
      rcases hs with h1 | h1
      · obtain ⟨e, he⟩ := Option.ne_none_iff_exists'.mp h1
        simp [he]
      · have : (p.Library.SlotLabel.Get env != (p.Context.GetTokenInfo s).1) = true := by
          simp only [bne_iff_ne, ne_eq]
          exact fun e => h1 e.symm
        simp [this]
    unfold pkcs11Wrapper.openSlots
    simp only [hc, if_true]
    rw [ih session _ (fun s' hm => h s' (List.mem_cons_of_mem _ hm))]
    simp

/-- C8, amended: when the device returns a slot list in which no slot has a readable token
whose label equals the configured slot label, `OpenSession` opens no session, keeps the
session handle the wrapper had, calls `Login` with that handle and the configured PIN
(empty when the PIN variable is not set), and returns exactly what `Login` returns. -/
theorem OpenSession_no_matching_slot (p : pkcs11Wrapper) (env : Env) (slots : List Nat)
    (hl : p.Context.GetSlotList true = (slots, none))
    (hno : ∀ s ∈ slots, (p.Context.GetTokenInfo s).2 ≠ none ∨
      (p.Context.GetTokenInfo s).1 ≠ p.Library.SlotLabel.Get env) :
    p.OpenSession env =
      (p.Context.Login p.Session CKU_USER
          (if p.Library.SlotPin.IsSet env then p.Library.SlotPin.Get env else ""),
        p,
        [Call.GetSlotList] ++ slots.map Call.GetTokenInfo ++
          [Call.Login p.Session CKU_USER
            (if p.Library.SlotPin.IsSet env then p.Library.SlotPin.Get env else "")]) := by
  unfold pkcs11Wrapper.OpenSession
  rw [hl]
  simp only [Option.isSome_none, Bool.false_eq_true, if_false]
  rw [openSlots_no_match p env slots p.Session [Call.GetSlotList] hno]

/-- Witness of C8: one slot, whose token is labelled `other` while `wanted` is
configured. -/
theorem OpenSession_no_matching_slot_witness :
    (wrapperOn "other" []).OpenSession exampleEnv =
      (none, wrapperOn "other" [],
        [Call.GetSlotList, Call.GetTokenInfo 0, Call.Login 0 CKU_USER ""]) :=
  OpenSession_no_matching_slot (wrapperOn "other" []) exampleEnv [0] rfl (by decide)

/-- C8 as stated fails: with one slot whose token label differs from the configured one,
`OpenSession` returns no error, and it has called `Login` with the session handle 0 that
no `OpenSession` of the device returned. -/
theorem OpenSession_no_matching_slot_counterexample :
    (wrapperOn "other" []).Context.GetSlotList true = ([0], none) ∧
    ((wrapperOn "other" []).Context.GetTokenInfo 0).1
      ≠ (wrapperOn "other" []).Library.SlotLabel.Get exampleEnv ∧
    ((wrapperOn "other" []).OpenSession exampleEnv).1 = none ∧
    Call.Login 0 CKU_USER "" ∈ ((wrapperOn "other" []).OpenSession exampleEnv).2.2 ∧
    (∀ s flags, Call.OpenSession s flags ∉
      ((wrapperOn "other" []).OpenSession exampleEnv).2.2) := by
  have e : ((wrapperOn "other" []).OpenSession exampleEnv).2.2
      = [Call.GetSlotList, Call.GetTokenInfo 0, Call.Login 0 CKU_USER ""] := by decide
  refine ⟨by decide, by decide, by decide, by decide, ?_⟩
  intro s flags
  rw [e]
  simp

/-! ## `Accounts` -/

/-- C9 at a failing input: on a device whose object search cannot be opened,
`findAllKeys` returns the device error, and `Accounts` returns no accounts with a nil
error, although the token holds a public key. -/
theorem Accounts_swallows_search_error :
    (⟨exampleLibrary, brokenSearchCtx "wanted" (tokenWithPublicKey (addrOf 1)), 1⟩ :
        pkcs11Wrapper).findAllKeys = ([], some "CKR_DEVICE_ERROR") ∧
    (⟨exampleLibrary, brokenSearchCtx "wanted" (tokenWithPublicKey (addrOf 1)), 1⟩ :
        pkcs11Wrapper).Accounts exampleLib = ([], none) ∧
    (⟨exampleLibrary, tokenCtx "wanted" (tokenWithPublicKey (addrOf 1)), 1⟩ :
        pkcs11Wrapper).Accounts exampleLib = ([⟨addrOf 1⟩], none) := by
  refine ⟨by decide, by decide, by decide⟩

end Pkcs11

namespace Pkcs11

/-! ## `ImportPrivateKey` -/

/-- The loop of `zeroKey` over the first `n` indices zeroes them and keeps the rest. -/
theorem zero_loop (n : Nat) : ∀ (b : List Nat), n ≤ b.length →
    (List.range n).foldl (fun (b : List Nat) (i : Nat) => b.set i 0) b
      = List.replicate n 0 ++ b.drop n := by
  induction n with
  | zero => intro b _; simp
  | succ n ih =>
    intro b hn
    rw [List.range_succ, List.foldl_append, ih b (by omega)]
    simp only [List.foldl_cons, List.foldl_nil]
    have hlen : (List.replicate n 0 : List Nat).length = n := by simp
    rw [List.set_append]
    simp only [hlen, lt_irrefl, if_false, Nat.sub_self]
    have hd : b.drop n = b[n] :: b.drop (n + 1) := by
      rw [List.drop_eq_getElem_cons]
    rw [hd, List.set_cons_zero, List.replicate_succ']
    simp

theorem zeroKey_bits (key : PrivateKey) :
    (zeroKey key).D.Bits = List.replicate key.D.Bits.length 0 := by
  unfold zeroKey
  simp only [bigInt.Bits]
  rw [zero_loop _ _ (le_refl _)]
  simp

theorem wordsValue_replicate_zero (n : Nat) : wordsValue (List.replicate n 0) = 0 := by
  induction n with
  | zero => rfl
  | succ n ih => simp [List.replicate_succ, wordsValue, ih]

/-- C10: when `ImportPrivateKey` has returned, whatever the device and the library
functions answered and so on the success exit and on every error exit, the words of the
caller's scalar `D` are as many as before and all zero, and `D` reads as 0. -/
theorem ImportPrivateKey_zeroes_key (p : pkcs11Wrapper) (lib : Lib) (key : PrivateKey)
    (conf : NewAccount) :
    (p.ImportPrivateKey lib key conf).2.D.Bits = List.replicate key.D.Bits.length 0 ∧
    (∀ w ∈ (p.ImportPrivateKey lib key conf).2.D.Bits, w = 0) ∧
    (p.ImportPrivateKey lib key conf).2.D.value = 0 := by
  have hb : (p.ImportPrivateKey lib key conf).2.D.Bits
      = List.replicate key.D.Bits.length 0 := zeroKey_bits key
  refine ⟨hb, ?_, ?_⟩
  · intro w hw
    rw [hb] at hw
    exact (List.mem_replicate.mp hw).2
  · have ha : (p.ImportPrivateKey lib key conf).2.D.abs
        = List.replicate key.D.Bits.length 0 := hb
    unfold bigInt.value
    rw [ha, wordsValue_replicate_zero]
    simp

/-- Two exits of `ImportPrivateKey` on concrete devices: the first object creation is
refused, and the import succeeds; the scalar 0x0102 is zeroed in both. -/
theorem ImportPrivateKey_exits :
    (wrapperOn "wanted" []).ImportPrivateKey exampleLib ⟨1, 2, ⟨false, [0x0102]⟩⟩ ⟨"k"⟩
      = ((zeroAccount, some "CKR_FUNCTION_NOT_SUPPORTED"), ⟨1, 2, ⟨false, [0]⟩⟩) ∧
    (⟨exampleLibrary, acceptingCtx, 1⟩ : pkcs11Wrapper).ImportPrivateKey exampleLib
        ⟨1, 2, ⟨false, [0x0102]⟩⟩ ⟨"k"⟩
      = ((⟨zeroAddress⟩, none), ⟨1, 2, ⟨false, [0]⟩⟩) := by
  refine ⟨by decide, by decide⟩

end Pkcs11

namespace Pkcs11

/-! ## `Status` -/

theorem hexPrefix_inj (k1 k2 : String) (h : "0x" ++ k1 = "0x" ++ k2) : k1 = k2 := by
  have hd := congrArg String.data h
  rw [String.data_append, String.data_append] at hd
  have := List.append_cancel_left hd
  exact String.ext this

theorem mapGet_ne_none_iff (m : List (String × Nat)) (k : String) :
    mapGet m k ≠ none ↔ k ∈ m.map Prod.fst := by
  induction m with
  | nil => simp [mapGet]
  | cons p rest ih =>
    obtain ⟨k0, v⟩ := p
    rw [mapGet_cons]
    by_cases h0 : k0 = k
    · simp [h0]
    · rw [if_neg h0, ih]
      simp only [List.map_cons, List.mem_cons]
      constructor
      · exact fun h => Or.inr h
      · rintro (h | h)
        · exact absurd h.symm h0
        · exact h

theorem mapDelete_keys_nodup (m : List (String × Nat)) (k : String)
    (h : (m.map Prod.fst).Nodup) : ((mapDelete m k).map Prod.fst).Nodup := by
  unfold mapDelete
  exact List.Nodup.sublist (List.Sublist.map _ (List.filter_sublist _)) h

theorem mapSet_keys_nodup (m : List (String × Nat)) (k : String) (v : Nat)
    (h : (m.map Prod.fst).Nodup) : ((mapSet m k v).map Prod.fst).Nodup := by
  unfold mapSet
  rw [List.map_cons, List.nodup_cons]
  refine ⟨?_, mapDelete_keys_nodup m k h⟩
  intro hm
  have := (mapGet_ne_none_iff (mapDelete m k) k).mpr hm
  exact this (mapGet_mapDelete_self m k)

/-- Every transition keeps the keys of the map distinct, as the keys of a Go map are. -/
theorem step_keys_nodup (a : accountManager) (op : Op)
    (h : (a.unlocked.map Prod.fst).Nodup) : ((step a op).unlocked.map Prod.fst).Nodup := by
  cases op with
  | sign b p =>
    show (((a.Sign b p).2).unlocked.map Prod.fst).Nodup
    rw [Sign_state]; exact h
  | unlockAndSign b p =>
    show (((a.UnlockAndSign b p).2).unlocked.map Prod.fst).Nodup
    rw [(UnlockAndSign_state a b p).2.1]; exact h
  | timedUnlock b d =>
    show (((a.TimedUnlock b d).2).unlocked.map Prod.fst).Nodup
    cases hc : a.wrapper.Contains b with
    | false => rw [TimedUnlock_of_not_contains a b d hc]; exact h
    | true =>
      rw [TimedUnlock_of_contains a b d hc]
      exact mapSet_keys_nodup _ _ _ h
  | lock b =>
    show (((a.Lock b)).unlocked.map Prod.fst).Nodup
    rw [Lock_eq]
    exact mapDelete_keys_nodup _ _ h
  | fire t =>
    show (((a.timerFires t)).unlocked.map Prod.fst).Nodup
    by_cases hs : mapGet a.unlocked t.addr = some t.key
    · by_cases hm : t ∈ a.timers
      · rw [timerFires_same a t hm hs]
        exact mapDelete_keys_nodup _ _ h
      · simp only [accountManager.timerFires, hm, if_false]; exact h
    · rw [timerFires_other a t hs]; exact h
  | other => exact h

/-- C11: `Status` returns a nil error; the string is exactly "0 unlocked account(s)" when
nothing is unlocked, and otherwise the count, " unlocked account(s): " and, between
brackets and separated by spaces, "0x" followed by the key, once for each key of the map,
in the order of the iteration; the item of an address is listed exactly when the address
is unlocked. -/
theorem Status_string (a : accountManager) (iteration : List (String × Nat))
    (hiter : iteration.Perm a.unlocked) (hmap : (a.unlocked.map Prod.fst).Nodup) :
    (a.Status iteration).2 = none ∧
    (a.unlocked = [] → (a.Status iteration).1 = "0 unlocked account(s)") ∧
    (a.unlocked ≠ [] →
      (a.Status iteration).1 =
        toString a.unlocked.length ++ " unlocked account(s): " ++
          ("[" ++ " ".intercalate (iteration.map (fun p => "0x" ++ p.1)) ++ "]")) ∧
    (iteration.map (fun p => "0x" ++ p.1)).Perm (a.unlocked.map (fun p => "0x" ++ p.1)) ∧
    (iteration.map (fun p => "0x" ++ p.1)).Nodup ∧
    (∀ b : Address, "0x" ++ b.ToHexString ∈ iteration.map (fun p => "0x" ++ p.1) ↔
      mapGet a.unlocked b.ToHexString ≠ none) := by
  have hperm : (iteration.map (fun p => "0x" ++ p.1)).Perm
      (a.unlocked.map (fun p => "0x" ++ p.1)) := hiter.map _
  have hnd : (a.unlocked.map (fun p => "0x" ++ p.1)).Nodup := by
    have e : a.unlocked.map (fun p => "0x" ++ p.1)
        = (a.unlocked.map Prod.fst).map (fun k => "0x" ++ k) := by
      rw [List.map_map]; rfl
    rw [e]
    exact List.Nodup.map (fun k1 k2 hk => hexPrefix_inj k1 k2 hk) hmap
  refine ⟨?_, ?_, ?_, hperm, hperm.nodup_iff.mpr hnd, ?_⟩
  · unfold accountManager.Status
    dsimp only
    split <;> rfl
  · intro he
    unfold accountManager.Status
    rw [he]
    have h0 : (([] : List (String × Nat)).length != 0) = false := by decide
    simp only [h0, Bool.false_eq_true, if_false]
    decide
  · intro hne
    have hlen : (a.unlocked.length != 0) = true := by
      simp only [bne_iff_ne, ne_eq, List.length_eq_zero]
      exact hne
    unfold accountManager.Status
    simp only [hlen, if_true]
    rw [String.append_assoc (toString a.unlocked.length) " unlocked account(s)" ": "]
    rfl
  · intro b
    rw [hperm.mem_iff, mapGet_ne_none_iff, List.mem_map, List.mem_map]
    constructor
    · rintro ⟨p, hp, he⟩
      exact ⟨p, hp, hexPrefix_inj _ _ he⟩
    · rintro ⟨p, hp, he⟩
      exact ⟨p, hp, by rw [he]⟩

/-- Witness of C11: one address unlocked. -/
theorem Status_string_witness :
    ((timedManager (addrOf 1) 5).Status [((addrOf 1).ToHexString, 1)]).1 =
      toString 1 ++ " unlocked account(s): " ++
        ("[" ++ " ".intercalate ["0x" ++ (addrOf 1).ToHexString] ++ "]") :=
  (Status_string (timedManager (addrOf 1) 5) [((addrOf 1).ToHexString, 1)]
    (List.Perm.refl _) (by decide)).2.2.1 (by decide)

/-- The two strings of the tests: nothing unlocked, and one address unlocked. -/
theorem Status_examples :
    (freshManager (moduleOf [])).Status [] = ("0 unlocked account(s)", none) ∧
    (timedManager (addrOf 1) 5).Status [((addrOf 1).ToHexString, 1)] =
      ("1 unlocked account(s): [0x0000000000000000000000000000000000000001]", none) := by
  refine ⟨by decide, by decide⟩

end Pkcs11

namespace Pkcs11

/-! ## The mutex -/

theorem guarded_reads (n : Nat) (rest : List Access) :
    guarded true (List.replicate n Access.mapRead ++ rest) = guarded true rest := by
  induction n with
  | zero => rfl
  | succ n ih =>
    rw [List.replicate_succ, List.cons_append]
    simp only [guarded, Bool.true_and]
    exact ih

/-- The accesses of `Status` are all made under the mutex. -/
theorem Status_guarded (a : accountManager) : guarded false a.StatusAccesses = true := by
  unfold accountManager.StatusAccesses
  have e : a.unlocked.map (fun _ => Access.mapRead)
      = List.replicate a.unlocked.length Access.mapRead := by
    rw [List.map_const']
  split
  · rw [e]
    show guarded true (List.replicate a.unlocked.length Access.mapRead ++ [Access.muUnlock])
      = true
    rw [guarded_reads]
    rfl
  · rfl

/-- The accesses of `Sign` are all made under the mutex. -/
theorem Sign_guarded (a : accountManager) (acctAddr : Address) :
    guarded false (a.SignAccesses acctAddr) = true := by
  unfold accountManager.SignAccesses
  split <;> rfl

/-- The accesses of `TimedUnlock` are all made under the mutex. -/
theorem TimedUnlock_guarded (a : accountManager) (acctAddr : Address) :
    guarded false (a.TimedUnlockAccesses acctAddr) = true := by
  unfold accountManager.TimedUnlockAccesses
  split <;> rfl

/-- The comparison of `lockAfter` is never made under the mutex. -/
theorem lockAfter_unguarded (a : accountManager) (addr : String) (key : Nat) :
    guarded false (a.lockAfterAccesses addr key) = false := by
  unfold accountManager.lockAfterAccesses
  simp [guarded]

/-- C12 at failing inputs: when the timer armed for the stored entry fires, `lockAfter`
reads the map, then takes the mutex, deletes and releases it, so the comparison is made
without the mutex; the same holds for `Lock` of an unlocked address, which runs
`lockAfter`, and `UnlockAndSign` of a locked address also reads the map between its
critical sections. -/
theorem lockAfter_reads_without_mutex :
    (timedManager (addrOf 1) 5).lockAfterAccesses (addrOf 1).ToHexString 1
      = [Access.mapRead, Access.muLock, Access.mapWrite, Access.muUnlock] ∧
    guarded false ((timedManager (addrOf 1) 5).lockAfterAccesses (addrOf 1).ToHexString 1)
      = false ∧
    guarded false ((timedManager (addrOf 1) 5).LockAccesses (addrOf 1)) = false ∧
    guarded false ((freshManager (moduleOf [addrOf 1])).UnlockAndSignAccesses (addrOf 1))
      = false := by
  refine ⟨by decide, by decide, by decide, by decide⟩

end Pkcs11

namespace Pkcs11

/-! ## `Config.Validate` -/

theorem isValidAbsFileUrl_iff (u : URL) :
    isValidAbsFileUrl u = true ↔ u.Scheme = "file" ∧ u.Host = "" ∧ u.Path ≠ "" := by
  simp [isValidAbsFileUrl, and_assoc]

theorem IsSet_iff (e : EnvironmentVariable) (env : Env) :
    e.IsSet env = true ↔ e.Host ≠ "" ∧ env e.Host ≠ none := by
  unfold EnvironmentVariable.IsSet
  by_cases h : e.Host = ""
  · simp [h]
  · simp [h, Option.isSome_iff_ne_none]

theorem validate_of_none (l : Pkcs11Library) (env : Env) (h : l.Path = none) :
    l.validate env = some InvalidLibraryPath := by
  unfold Pkcs11Library.validate
  rw [h]

theorem validate_of_some (l : Pkcs11Library) (env : Env) (u : URL) (h : l.Path = some u) :
    l.validate env =
      if u.String = "" ∨ ¬ (u.Scheme = "file" ∧ u.Host = "" ∧ u.Path ≠ "") then
        some InvalidLibraryPath
      else if l.SlotLabel.Host = "" ∨ env l.SlotLabel.Host = none then some MissingSlotLabel
      else none := by
  unfold Pkcs11Library.validate
  rw [h]
  simp only
  by_cases h1 : u.String = ""
  · simp [h1]
  · by_cases h2 : u.Scheme = "file" ∧ u.Host = "" ∧ u.Path ≠ ""
    · have hv := (isValidAbsFileUrl_iff u).mpr h2
      by_cases h3 : l.SlotLabel.Host ≠ "" ∧ env l.SlotLabel.Host ≠ none
      · have hs := (IsSet_iff l.SlotLabel env).mpr h3
        have h3' : ¬ (l.SlotLabel.Host = "" ∨ env l.SlotLabel.Host = none) := by
          rintro (h | h)
          · exact h3.1 h
          · exact h3.2 h
        simp [h1, h2, hv, hs, h3']
      · have hs : l.SlotLabel.IsSet env = false := by
          rw [Bool.eq_false_iff]
          exact fun h => h3 ((IsSet_iff l.SlotLabel env).mp h)
        have h3' : l.SlotLabel.Host = "" ∨ env l.SlotLabel.Host = none := by
          by_contra hc
          push_neg at hc
          exact h3 hc
        simp [h1, h2, hv, hs, h3']
    · have hv : isValidAbsFileUrl u = false := by
        rw [Bool.eq_false_iff]
        exact fun h => h2 ((isValidAbsFileUrl_iff u).mp h)
      simp [h1, h2, hv]

theorem Validate_eq (c : Config) (env : Env) : c.Validate env = c.Library.validate env := by
  unfold Config.Validate
  cases c.Library.validate env <;> rfl

/-- C13: `Config.Validate` returns `InvalidLibraryPath` exactly when the library path is nil,
renders as the empty string, or does not have scheme "file", an empty host and a path that
is not empty; otherwise it returns `MissingSlotLabel` exactly when the host of the slot
label indirection is empty or names a variable that is not set; and nil otherwise. The
path check comes first. -/
theorem Validate_result (c : Config) (env : Env) :
    (c.Validate env = some InvalidLibraryPath ↔
      (c.Library.Path = none ∨ ∃ u, c.Library.Path = some u ∧
        (u.String = "" ∨ ¬ (u.Scheme = "file" ∧ u.Host = "" ∧ u.Path ≠ "")))) ∧
    (c.Validate env = some MissingSlotLabel ↔
      ((∃ u, c.Library.Path = some u ∧
        ¬ (u.String = "" ∨ ¬ (u.Scheme = "file" ∧ u.Host = "" ∧ u.Path ≠ ""))) ∧
        (c.Library.SlotLabel.Host = "" ∨ env c.Library.SlotLabel.Host = none))) ∧
    (c.Validate env = none ↔
      ((∃ u, c.Library.Path = some u ∧
        ¬ (u.String = "" ∨ ¬ (u.Scheme = "file" ∧ u.Host = "" ∧ u.Path ≠ ""))) ∧
        ¬ (c.Library.SlotLabel.Host = "" ∨ env c.Library.SlotLabel.Host = none))) := by
  have hne : InvalidLibraryPath ≠ MissingSlotLabel := by decide
  rw [Validate_eq]
  cases hP : c.Library.Path with
  | none =>
    rw [validate_of_none _ _ hP]
    refine ⟨?_, ?_, ?_⟩
    · simp
    · simp [hne]
    · simp
  | some u =>
    rw [validate_of_some _ _ u hP]
    by_cases h1 : u.String = "" ∨ ¬ (u.Scheme = "file" ∧ u.Host = "" ∧ u.Path ≠ "")
    · rw [if_pos h1]
      refine ⟨?_, ?_, ?_⟩
      · simp only [true_iff]
        exact Or.inr ⟨u, rfl, h1⟩
      · constructor
        · intro h; exact absurd (Option.some.inj h) hne
        · rintro ⟨⟨v, hv, hn⟩, _⟩
          rw [← Option.some.inj hv] at hn
          exact absurd h1 hn
      · constructor
        · intro h; exact absurd h (by simp)
        · rintro ⟨⟨v, hv, hn⟩, _⟩
          rw [← Option.some.inj hv] at hn
          exact absurd h1 hn
    · rw [if_neg h1]
      by_cases h3 : c.Library.SlotLabel.Host = "" ∨ env c.Library.SlotLabel.Host = none
      · rw [if_pos h3]
        refine ⟨?_, ?_, ?_⟩
        · constructor
          · intro h; exact absurd (Option.some.inj h).symm hne
          · rintro (h | ⟨v, hv, hn⟩)
            · exact absurd h (by simp)
            · rw [← Option.some.inj hv] at hn
              exact absurd hn h1
        · simp only [true_iff]
          exact ⟨⟨u, rfl, h1⟩, h3⟩
        · constructor
          · intro h; exact absurd h (by simp)
          · rintro ⟨_, hn⟩
            exact absurd h3 hn
      · rw [if_neg h3]
        refine ⟨?_, ?_, ?_⟩
        · constructor
          · intro h; exact absurd h (by simp)
          · rintro (h | ⟨v, hv, hn⟩)
            · exact absurd h (by simp)
            · rw [← Option.some.inj hv] at hn
              exact absurd hn h1
        · constructor
          · intro h; exact absurd h (by simp)
          · rintro ⟨_, hn⟩
            exact absurd hn h3
        · simp only [true_iff]
          exact ⟨⟨u, rfl, h1⟩, h3⟩

/-- Witness of C13: a path with scheme "http" is refused whatever the environment, and a
file path with `SLOT_LABEL` unset gives the slot label error. -/
theorem Validate_result_witness :
    (configWithPath "http://vault").Validate exampleEnv = some InvalidLibraryPath ∧
    (configWithPath "file:///path/to/lib").Validate emptyEnv = some MissingSlotLabel :=
  ⟨(Validate_result (configWithPath "http://vault") exampleEnv).1.mpr
      (Or.inr ⟨urlParse "http://vault", rfl, Or.inr (by decide)⟩),
   (Validate_result (configWithPath "file:///path/to/lib") emptyEnv).2.1.mpr
      ⟨⟨urlParse "file:///path/to/lib", rfl, by decide⟩, Or.inr rfl⟩⟩

/-- The paths of the tests: five are refused, two are accepted, and with an accepted path
the slot label decides. -/
theorem Validate_examples :
    (configWithPath "").Validate exampleEnv = some InvalidLibraryPath ∧
    (configWithPath "noscheme").Validate exampleEnv = some InvalidLibraryPath ∧
    (configWithPath "http://vault").Validate exampleEnv = some InvalidLibraryPath ∧
    (configWithPath "https://vault:1111").Validate exampleEnv = some InvalidLibraryPath ∧
    (configWithPath "http://127.0.0.1:1111").Validate exampleEnv = some InvalidLibraryPath ∧
    (configWithPath "file:///usr/lib64/pkcs11/libsofthsm2.so").Validate exampleEnv = none ∧
    (configWithPath "file:///usr/local/lib/softhsm/libsofthsm2.so").Validate exampleEnv
      = none ∧
    (configWithPath "file:///path/to/lib").Validate emptyEnv = some MissingSlotLabel ∧
    (configWithPath "http://vault").Validate emptyEnv = some InvalidLibraryPath := by
  refine ⟨by decide, by decide, by decide, by decide, by decide, by decide, by decide,
    by decide, by decide⟩

end Pkcs11

namespace Pkcs11

/-! ## `NewKeyFromHexString` -/

theorem fromHexChar_hextable (n : Nat) (h : n < 16) :
    fromHexChar (hextable.getD n '0') = some n := by
  interval_cases n <;> decide

theorem DecodeString_EncodeToString (b : List (Fin 256)) :
    DecodeString (EncodeToString b) = some b := by
  induction b with
  | nil => rfl
  | cons x xs ih =>
    have hx := x.isLt
    simp only [EncodeToString, DecodeString]
    rw [fromHexChar_hextable _ (by omega), fromHexChar_hextable _ (Nat.mod_lt _ (by omega)), ih]
    simp only [Option.some.injEq, List.cons.injEq, and_true]
    apply Fin.ext
    show (x.val / 16 * 16 + x.val % 16) % 256 = x.val
    omega

theorem TrimPrefix_EncodeToString (b : List (Fin 256)) :
    TrimPrefix (String.mk (EncodeToString b)) "0x" = String.mk (EncodeToString b) := by
  have hd : "0x".data = ['0', 'x'] := by decide
  have hp : List.isPrefixOf "0x".data (EncodeToString b) = false := by
    rw [hd]
    cases b with
    | nil => rfl
    | cons x xs =>
      have hne := hextable_ne_x (x.val % 16)
      have hx2 : ('x' == hextable.getD (x.val % 16) '0') = false :=
        beq_eq_false_iff_ne.mpr (fun h => hne h.symm)
      simp only [EncodeToString, List.isPrefixOf, hx2, Bool.false_and, Bool.and_false]
  unfold TrimPrefix
  rw [if_neg]
  simp only
  rw [hp]; simp

theorem TrimPrefix_0x (s : String) : TrimPrefix ("0x" ++ s) "0x" = s := by
  have hd : "0x".data = ['0', 'x'] := by decide
  unfold TrimPrefix
  rw [String.data_append, hd]
  simp [List.isPrefixOf]

theorem foldl_bytes_lt (bs : List (Fin 256)) : ∀ acc : Nat,
    bs.foldl (fun acc b => acc * 256 + b.val) acc < (acc + 1) * 256 ^ bs.length := by
  induction bs with
  | nil => intro acc; simp
  | cons b rest ih =>
    intro acc
    simp only [List.foldl_cons, List.length_cons]
    have h1 := ih (acc * 256 + b.val)
    have hb := b.isLt
    have h2 : (acc * 256 + b.val + 1) * 256 ^ rest.length
        ≤ (acc + 1) * 256 * 256 ^ rest.length :=
      Nat.mul_le_mul_right _ (by omega)
    calc List.foldl (fun acc b => acc * 256 + b.val) (acc * 256 + b.val) rest
        < (acc * 256 + b.val + 1) * 256 ^ rest.length := h1
      _ ≤ (acc + 1) * 256 * 256 ^ rest.length := h2
      _ = (acc + 1) * 256 ^ (rest.length + 1) := by rw [pow_succ]; ring

theorem bytesValue_lt (bs : List (Fin 256)) : bytesValue bs < 2 ^ (64 * bs.length) := by
  have h := foldl_bytes_lt bs 0
  simp only [zero_add, one_mul] at h
  have h2 : (256 : Nat) ^ bs.length ≤ 2 ^ (64 * bs.length) := by
    have e : (256 : Nat) ^ bs.length = 2 ^ (8 * bs.length) := by
      rw [pow_mul]; norm_num
    rw [e]
    exact Nat.pow_le_pow_right (by norm_num) (by omega)
  exact lt_of_lt_of_le h h2

theorem wordsValue_natWords (fuel : Nat) : ∀ n : Nat, n < 2 ^ (64 * fuel) →
    wordsValue (natWords fuel n) = n := by
  induction fuel with
  | zero =>
    intro n hn
    simp at hn
    simp [natWords, wordsValue, hn]
  | succ f ih =>
    intro n hn
    unfold natWords
    by_cases h0 : n = 0
    · simp [h0, wordsValue]
    · rw [if_neg h0]
      simp only [wordsValue]
      have hdiv : n / 2 ^ 64 < 2 ^ (64 * f) := by
        rw [Nat.div_lt_iff_lt_mul (by positivity)]
        calc n < 2 ^ (64 * (f + 1)) := hn
          _ = 2 ^ (64 * f) * 2 ^ 64 := by rw [← pow_add]; ring_nf
      rw [ih _ hdiv, Nat.mod_mod]
      exact Nat.mod_add_div n (2 ^ 64)

/-- The integer set from bytes reads as the bytes, most significant first. -/
theorem SetBytes_value (bs : List (Fin 256)) :
    (bigInt.SetBytes bs).value = (bytesValue bs : Int) := by
  unfold bigInt.SetBytes bigInt.value
  simp only [Bool.false_eq_true, if_false]
  rw [wordsValue_natWords _ _ (bytesValue_lt bs)]

theorem NewKeyFromHexString_of_bytes (scalarBaseMult : List (Fin 256) → Int × Int)
    (s : String) (byt : List (Fin 256))
    (hd : DecodeString (TrimPrefix s "0x").data = some byt) (hl : byt.length = 32) :
    NewKeyFromHexString scalarBaseMult s =
      (some ⟨(scalarBaseMult byt).1, (scalarBaseMult byt).2, bigInt.SetBytes byt⟩, none) := by
  unfold NewKeyFromHexString
  rw [hd]
  simp [hl]

/-- C14: for every 32-byte value, `NewKeyFromHexString` succeeds on its hex string, with
and without "0x" in front, and the scalar of the key is the value read as a big-endian
integer; on a string that is not hex after the optional "0x" it fails with an error that
contains "invalid hex private key"; on hex that does not decode to 32 bytes it fails with
"private key must have length 32 bytes". -/
theorem NewKeyFromHexString_roundtrip (scalarBaseMult : List (Fin 256) → Int × Int) :
    (∀ b : List (Fin 256), b.length = 32 →
      (∃ k, NewKeyFromHexString scalarBaseMult (String.mk (EncodeToString b))
          = (some k, none) ∧ k.D.value = (bytesValue b : Int)) ∧
      (∃ k, NewKeyFromHexString scalarBaseMult ("0x" ++ String.mk (EncodeToString b))
          = (some k, none) ∧ k.D.value = (bytesValue b : Int))) ∧
    (∀ s : String, DecodeString (TrimPrefix s "0x").data = none →
      (NewKeyFromHexString scalarBaseMult s).1 = none ∧
      ∃ e, (NewKeyFromHexString scalarBaseMult s).2 = some e ∧
        List.IsInfix "invalid hex private key".data e.data) ∧
    (∀ (s : String) (byt : List (Fin 256)),
      DecodeString (TrimPrefix s "0x").data = some byt → byt.length ≠ 32 →
      NewKeyFromHexString scalarBaseMult s
        = (none, some "private key must have length 32 bytes")) := by
  refine ⟨?_, ?_, ?_⟩
  · intro b hb
    constructor
    · refine ⟨_, NewKeyFromHexString_of_bytes scalarBaseMult _ b ?_ hb, SetBytes_value b⟩
      rw [TrimPrefix_EncodeToString]
      exact DecodeString_EncodeToString b
    · refine ⟨_, NewKeyFromHexString_of_bytes scalarBaseMult _ b ?_ hb, SetBytes_value b⟩
      rw [TrimPrefix_0x]
      exact DecodeString_EncodeToString b
  · intro s hs
    unfold NewKeyFromHexString
    rw [hs]
    exact ⟨rfl, _, rfl, List.infix_refl _⟩
  · intro s byt hs hl
    unfold NewKeyFromHexString
    rw [hs]
    simp [hl]

/-- Witness of C14: the key of the tests, a string that is not hex, and two bytes of hex. -/
theorem NewKeyFromHexString_roundtrip_witness :
    (∃ k, NewKeyFromHexString (fun _ => (0, 0))
        ("0x" ++ "1fe8f1ad4053326db20529257ac9401f2e6c769ef1d736b8c2f5aba5f787c72b")
          = (some k, none) ∧
        k.D.value = 0x1fe8f1ad4053326db20529257ac9401f2e6c769ef1d736b8c2f5aba5f787c72b) ∧
    (NewKeyFromHexString (fun _ => (0, 0)) "this-is-not-hex").1 = none ∧
    NewKeyFromHexString (fun _ => (0, 0)) "1fe8"
      = (none, some "private key must have length 32 bytes") :=
  ⟨((NewKeyFromHexString_roundtrip (fun _ => (0, 0))).1 testKeyBytes (by decide)).2,
   ((NewKeyFromHexString_roundtrip (fun _ => (0, 0))).2.1 "this-is-not-hex" (by decide)).1,
   (NewKeyFromHexString_roundtrip (fun _ => (0, 0))).2.2 "1fe8" [0x1f, 0xe8] (by decide)
     (by decide)⟩

end Pkcs11

namespace Pkcs11

/-! ## The manager on the PKCS#11 adapter -/

theorem Contains_of_found (p : pkcs11Wrapper) (acctAddr : Address)
    (h : (p.findPrivateKey acctAddr).2 = none) : p.Contains acctAddr = false := by
  simp [pkcs11Wrapper.Contains, h]

theorem Contains_of_lookup_error (p : pkcs11Wrapper) (acctAddr : Address) (e : String)
    (h : (p.findPrivateKey acctAddr).2 = some e) : p.Contains acctAddr = true := by
  simp [pkcs11Wrapper.Contains, h]

/-- The adapter's `Sign` returns the error of its own lookup of the private key. -/
theorem adapter_Sign_of_lookup_error (p : pkcs11Wrapper) (toSign : Bytes)
    (acctAddr : Address) (e : String) (h : (p.findPrivateKey acctAddr).2 = some e) :
    p.Sign toSign acctAddr = (none, some e) := by
  unfold pkcs11Wrapper.Sign
  cases hf : p.findPrivateKey acctAddr with
  | mk k err =>
    rw [hf] at h
    simp only at h
    subst h
    rfl

theorem Sign_of_not_contains (a : accountManager) (acctAddr : Address) (toSign : Bytes)
    (hc : a.wrapper.Contains acctAddr = false) :
    (a.Sign acctAddr toSign).1 = (none, some "account does not exist") := by
  simp [accountManager.Sign, accountManager.Contains, hc]

/-- C15: when the manager's module is the PKCS#11 adapter, `Sign` returns an error and no
signature. If the lookup of the private key tagged with the address succeeds, the
adapter's `Contains` is false, `Sign` fails with "account does not exist" and so does
`TimedUnlock`, leaving the state as it was. If the lookup fails, because there is no such
key or because the search fails, `Contains` is true and `Sign` fails with "account locked"
when the address is not unlocked, and otherwise returns the result of the adapter's
`Sign`, which is the error of that same lookup. -/
theorem Sign_on_adapter (p : pkcs11Wrapper) (a : accountManager) (acctAddr : Address)
    (toSign : Bytes) (d : Int) (hw : a.wrapper = cryptokiOf p) :
    ((a.Sign acctAddr toSign).1.1 = none ∧ (a.Sign acctAddr toSign).1.2 ≠ none) ∧
    ((p.findPrivateKey acctAddr).2 = none →
      p.Contains acctAddr = false ∧
      (a.Sign acctAddr toSign).1 = (none, some "account does not exist") ∧
      a.TimedUnlock acctAddr d = (some "account does not exist", a)) ∧
    (∀ e : String, (p.findPrivateKey acctAddr).2 = some e →
      p.Contains acctAddr = true ∧
      (mapGet a.unlocked acctAddr.ToHexString = none →
        (a.Sign acctAddr toSign).1 = (none, some "account locked")) ∧
      (mapGet a.unlocked acctAddr.ToHexString ≠ none →
        (a.Sign acctAddr toSign).1 = p.Sign toSign acctAddr ∧
        p.Sign toSign acctAddr = (none, some e))) := by
  have hcw : a.wrapper.Contains acctAddr = p.Contains acctAddr := by rw [hw]; rfl
  have hsw : a.wrapper.Sign toSign acctAddr = p.Sign toSign acctAddr := by rw [hw]; rfl
  have found : (p.findPrivateKey acctAddr).2 = none →
      p.Contains acctAddr = false ∧
      (a.Sign acctAddr toSign).1 = (none, some "account does not exist") ∧
      a.TimedUnlock acctAddr d = (some "account does not exist", a) := by
    intro h
    have hc := Contains_of_found p acctAddr h
    exact ⟨hc, Sign_of_not_contains a acctAddr toSign (by rw [hcw]; exact hc),
      TimedUnlock_of_not_contains a acctAddr d (by rw [hcw]; exact hc)⟩
  have failed : ∀ e : String, (p.findPrivateKey acctAddr).2 = some e →
      p.Contains acctAddr = true ∧
      (mapGet a.unlocked acctAddr.ToHexString = none →
        (a.Sign acctAddr toSign).1 = (none, some "account locked")) ∧
      (mapGet a.unlocked acctAddr.ToHexString ≠ none →
        (a.Sign acctAddr toSign).1 = p.Sign toSign acctAddr ∧
        p.Sign toSign acctAddr = (none, some e)) := by
    intro e h
    have hc := Contains_of_lookup_error p acctAddr e h
    refine ⟨hc, ?_, ?_⟩
    · intro hn
      exact Sign_of_locked a acctAddr toSign (by rw [hcw]; exact hc) hn
    · intro hn
      obtain ⟨k, hk⟩ := Option.ne_none_iff_exists'.mp hn
      refine ⟨?_, adapter_Sign_of_lookup_error p toSign acctAddr e h⟩
      rw [Sign_of_unlocked a acctAddr toSign k (by rw [hcw]; exact hc) hk, hsw]
  refine ⟨?_, found, failed⟩
  cases hf : (p.findPrivateKey acctAddr).2 with
  | none =>
    rw [(found hf).2.1]
    exact ⟨rfl, by simp⟩
  | some e =>
    obtain ⟨_, h1, h2⟩ := failed e hf
    cases hg : mapGet a.unlocked acctAddr.ToHexString with
    | none =>
      rw [h1 hg]
      exact ⟨rfl, by simp⟩
    | some k =>
      have hn : mapGet a.unlocked acctAddr.ToHexString ≠ none := by rw [hg]; simp
      rw [(h2 hn).1, (h2 hn).2]
      exact ⟨rfl, by simp⟩

/-- Witness of C15: on a token that holds the key of the address, `Sign` says that the
account does not exist; on an empty token, `Sign` of the unlocked address returns the
adapter's "key not found". -/
theorem Sign_on_adapter_witness :
    ((freshManager (cryptokiOf (wrapperOn "wanted" (tokenWithKey (addrOf 1))))).Sign
        (addrOf 1) [1]).1 = (none, some "account does not exist") ∧
    (((⟨cryptokiOf (wrapperOn "wanted" []), [((addrOf 1).ToHexString, 1)], []⟩ :
        accountManager).Sign (addrOf 1) [1]).1 = (wrapperOn "wanted" []).Sign [1] (addrOf 1) ∧
      (wrapperOn "wanted" []).Sign [1] (addrOf 1) = (none, some "key not found")) :=
  ⟨((Sign_on_adapter (wrapperOn "wanted" (tokenWithKey (addrOf 1)))
      (freshManager (cryptokiOf (wrapperOn "wanted" (tokenWithKey (addrOf 1)))))
      (addrOf 1) [1] 0 rfl).2.1 (by decide)).2.1,
   ((Sign_on_adapter (wrapperOn "wanted" [])
      ⟨cryptokiOf (wrapperOn "wanted" []), [((addrOf 1).ToHexString, 1)], []⟩
      (addrOf 1) [1] 0 rfl).2.2 "key not found" (by decide)).2.2 (by decide)⟩

end Pkcs11

namespace Pkcs11

/-! ## Interleaved runs -/

theorem Interleaved.freshKey_ne_live (s : Interleaved) (k : Nat)
    (h : k ∈ s.liveKeys) : k ≠ s.newLockableKey := by
  have := le_foldr_max _ _ h
  unfold Interleaved.newLockableKey
  omega

theorem Interleaved.freshKey_ne_waiting_timer (s : Interleaved) (t : Timer)
    (h : t ∈ s.mgr.timers) : t.key ≠ s.newLockableKey := by
  apply Interleaved.freshKey_ne_live
  unfold Interleaved.liveKeys accountManager.liveKeys
  exact List.mem_append_left _ (List.mem_append_left _
    (List.mem_append_right _ (List.mem_map.mpr ⟨t, h, rfl⟩)))

theorem Interleaved.timedUnlockBegins_of_contains (s : Interleaved) (acctAddr : Address)
    (d : Int) (h : s.mgr.wrapper.Contains acctAddr = true) :
    s.timedUnlockBegins acctAddr d = (none, { s with
      mgr := { s.mgr with
        timers := if d > 0 then
            s.mgr.timers ++ [⟨acctAddr.ToHexString, s.newLockableKey, d⟩]
          else s.mgr.timers }
      storing := s.storing ++ [(acctAddr.ToHexString, s.newLockableKey)] }) := by
  simp [Interleaved.timedUnlockBegins, accountManager.Contains, h, TrimPrefix_ToHexString]

theorem Interleaved.timedUnlockBegins_of_not_contains (s : Interleaved) (acctAddr : Address)
    (d : Int) (h : s.mgr.wrapper.Contains acctAddr = false) :
    s.timedUnlockBegins acctAddr d = (some "account does not exist", s) := by
  simp [Interleaved.timedUnlockBegins, accountManager.Contains, h]

theorem Interleaved.lockLooksUp_of_none (s : Interleaved) (acctAddr : Address)
    (h : mapGet s.mgr.unlocked acctAddr.ToHexString = none) : s.lockLooksUp acctAddr = s := by
  unfold Interleaved.lockLooksUp
  simp only [h]

theorem Interleaved.lockLooksUp_of_some (s : Interleaved) (acctAddr : Address) (k : Nat)
    (h : mapGet s.mgr.unlocked acctAddr.ToHexString = some k) :
    s.lockLooksUp acctAddr = { s with mgr := { s.mgr with
      timers := s.mgr.timers ++ [⟨acctAddr.ToHexString, k, 0⟩] } } := by
  unfold Interleaved.lockLooksUp
  simp only [h]

/-- Every step that does not belong to a `Lock` of the address or to a `TimedUnlock` of it
with a positive duration keeps the address unlocked. -/
theorem staysOpen_exec (w : Cryptoki) (acctAddr : Address) (s : Interleaved) (e : Event)
    (h : staysOpen w acctAddr s) (he : e.mayLock acctAddr = false) :
    staysOpen w acctAddr (exec s e) := by
  obtain ⟨hw, ⟨k, hk, ht⟩, hdel, hsto⟩ := h
  cases e with
  | timedUnlockBegins b d =>
    show staysOpen w acctAddr (s.timedUnlockBegins b d).2
    cases hc : s.mgr.wrapper.Contains b with
    | false =>
      rw [Interleaved.timedUnlockBegins_of_not_contains s b d hc]
      exact ⟨hw, ⟨k, hk, ht⟩, hdel, hsto⟩
    | true =>
      rw [Interleaved.timedUnlockBegins_of_contains s b d hc]
      -- a timer that is added is not for the address
      have hnew : ∀ t, t ∈ (if d > 0 then
          s.mgr.timers ++ [⟨b.ToHexString, s.newLockableKey, d⟩] else s.mgr.timers) →
          t.addr = acctAddr.ToHexString → t ∈ s.mgr.timers := by
        intro t htm hta
        split at htm
        · rename_i hd
          rcases List.mem_append.mp htm with hm | hm
          · exact hm
          · rw [List.mem_singleton] at hm
            rw [hm] at hta
            have hb : b = acctAddr := ToHexString_inj _ _ hta
            simp [Event.mayLock, hb, hd] at he
        · exact htm
      refine ⟨hw, ⟨k, hk, ?_⟩, hdel, ?_⟩
      · intro t htm hta
        exact ht t (hnew t htm hta) hta
      · intro p hp hpa t htm hta
        have htold := hnew t htm hta
        rcases List.mem_append.mp hp with hm | hm
        · exact hsto p hm hpa t htold hta
        · rw [List.mem_singleton] at hm
          rw [hm]
          exact Interleaved.freshKey_ne_waiting_timer s t htold
  | timedUnlockStores addr key =>
    show staysOpen w acctAddr (s.timedUnlockStores addr key)
    unfold Interleaved.timedUnlockStores
    split
    · rename_i hmem
      refine ⟨hw, ?_, hdel, ?_⟩
      · by_cases ha : addr = acctAddr.ToHexString
        · refine ⟨key, ?_, ?_⟩
          · simp only [ha]; exact mapGet_mapSet_self _ _ _
          · intro t htm hta
            exact hsto (addr, key) hmem ha t htm hta
        · refine ⟨k, ?_, ht⟩
          simp only
          rw [mapGet_mapSet_ne _ _ _ _ (fun e => ha e.symm)]
          exact hk
      · intro p hp hpa t htm hta
        exact hsto p (List.mem_of_mem_erase hp) hpa t htm hta
    · exact ⟨hw, ⟨k, hk, ht⟩, hdel, hsto⟩
  | lockLooksUp b =>
    show staysOpen w acctAddr (s.lockLooksUp b)
    have hb : b ≠ acctAddr := by
      intro hb
      simp [Event.mayLock, hb] at he
    have hne : b.ToHexString ≠ acctAddr.ToHexString := ToHexString_ne _ _ hb
    cases hg : mapGet s.mgr.unlocked b.ToHexString with
    | none =>
      rw [Interleaved.lockLooksUp_of_none s b hg]
      exact ⟨hw, ⟨k, hk, ht⟩, hdel, hsto⟩
    | some lockable =>
      rw [Interleaved.lockLooksUp_of_some s b lockable hg]
      have hnew : ∀ t, t ∈ s.mgr.timers ++ [(⟨b.ToHexString, lockable, 0⟩ : Timer)] →
          t.addr = acctAddr.ToHexString → t ∈ s.mgr.timers := by
        intro t htm hta
        rcases List.mem_append.mp htm with hm | hm
        · exact hm
        · rw [List.mem_singleton] at hm
          rw [hm] at hta
          exact absurd hta hne
      refine ⟨hw, ⟨k, hk, ?_⟩, hdel, ?_⟩
      · intro t htm hta
        exact ht t (hnew t htm hta) hta
      · intro p hp hpa t htm hta
        exact hsto p hp hpa t (hnew t htm hta) hta
  | lockAfterCompares t =>
    show staysOpen w acctAddr (s.lockAfterCompares t)
    unfold Interleaved.lockAfterCompares
    split
    · rename_i hmem
      split
      · rename_i heq
        have hta : t.addr ≠ acctAddr.ToHexString := by
          intro hta
          rw [hta, hk] at heq
          exact ht t hmem hta (Option.some.inj heq).symm
        refine ⟨hw, ⟨k, hk, ?_⟩, ?_, ?_⟩
        · intro t' htm hta'
          exact ht t' (List.mem_of_mem_erase htm) hta'
        · intro t' htm
          rcases List.mem_append.mp htm with hm | hm
          · exact hdel t' hm
          · rw [List.mem_singleton] at hm
            rw [hm]; exact hta
        · intro p hp hpa t' htm hta'
          exact hsto p hp hpa t' (List.mem_of_mem_erase htm) hta'
      · refine ⟨hw, ⟨k, hk, ?_⟩, hdel, ?_⟩
        · intro t' htm hta'
          exact ht t' (List.mem_of_mem_erase htm) hta'
        · intro p hp hpa t' htm hta'
          exact hsto p hp hpa t' (List.mem_of_mem_erase htm) hta'
    · exact ⟨hw, ⟨k, hk, ht⟩, hdel, hsto⟩
  | lockAfterDeletes t =>
    show staysOpen w acctAddr (s.lockAfterDeletes t)
    unfold Interleaved.lockAfterDeletes
    split
    · rename_i hmem
      have hta := hdel t hmem
      refine ⟨hw, ⟨k, ?_, ht⟩, ?_, hsto⟩
      · simp only
        rw [mapGet_mapDelete_ne _ _ _ (fun e => hta e.symm)]
        exact hk
      · intro t' htm
        exact hdel t' (List.mem_of_mem_erase htm)
    · exact ⟨hw, ⟨k, hk, ht⟩, hdel, hsto⟩
  | reads => exact ⟨hw, ⟨k, hk, ht⟩, hdel, hsto⟩

theorem staysOpen_runEvents (w : Cryptoki) (acctAddr : Address) (events : List Event) :
    ∀ s : Interleaved, staysOpen w acctAddr s →
      (∀ e ∈ events, e.mayLock acctAddr = false) →
      staysOpen w acctAddr (runEvents s events) := by
  induction events with
  | nil => intro s h _; exact h
  | cons e rest ih =>
    intro s h hev
    exact ih (exec s e) (staysOpen_exec w acctAddr s e h (hev e (List.mem_cons_self _ _)))
      (fun o hm => hev o (List.mem_cons_of_mem _ hm))

/-- A call of `TimedUnlock` that runs from its start to its store with no step of another
goroutine in between is the transition `accountManager.TimedUnlock`. -/
theorem TimedUnlock_as_events (a : accountManager) (acctAddr : Address) (d : Int) :
    runEvents (quiescent a)
        [Event.timedUnlockBegins acctAddr d,
          Event.timedUnlockStores acctAddr.ToHexString a.newLockableKey]
      = quiescent (a.TimedUnlock acctAddr d).2 := by
  have hkey : (quiescent a).newLockableKey = a.newLockableKey := by
    simp [Interleaved.newLockableKey, Interleaved.liveKeys, quiescent,
      accountManager.newLockableKey]
  cases hc : a.wrapper.Contains acctAddr with
  | false =>
    rw [TimedUnlock_of_not_contains a acctAddr d hc]
    simp only [runEvents, List.foldl_cons, List.foldl_nil, exec]
    rw [Interleaved.timedUnlockBegins_of_not_contains (quiescent a) acctAddr d hc]
    simp [Interleaved.timedUnlockStores, quiescent]
  | true =>
    rw [TimedUnlock_of_contains a acctAddr d hc]
    simp only [runEvents, List.foldl_cons, List.foldl_nil, exec]
    rw [Interleaved.timedUnlockBegins_of_contains (quiescent a) acctAddr d hc, hkey]
    simp [Interleaved.timedUnlockStores, quiescent]

/-- A timer whose comparison and delete run with no step of another goroutine in between
is the transition `accountManager.timerFires`. -/
theorem timerFires_as_events (a : accountManager) (t : Timer) :
    runEvents (quiescent a) [Event.lockAfterCompares t, Event.lockAfterDeletes t]
      = quiescent (a.timerFires t) := by
  simp only [runEvents, List.foldl_cons, List.foldl_nil, exec]
  by_cases hm : t ∈ a.timers
  · by_cases hs : mapGet a.unlocked t.addr = some t.key
    · simp [Interleaved.lockAfterCompares, Interleaved.lockAfterDeletes, quiescent,
        accountManager.timerFires, accountManager.lockAfter, hm, hs]
    · simp [Interleaved.lockAfterCompares, Interleaved.lockAfterDeletes, quiescent,
        accountManager.timerFires, accountManager.lockAfter, hm, hs]
  · simp [Interleaved.lockAfterCompares, Interleaved.lockAfterDeletes, quiescent,
      accountManager.timerFires, hm]

/-- C2, amended: for an address the module contains, `TimedUnlock` with a duration that is
not positive does not return early, arms no timer (the waiting timers are the same and
none holds the new entry), stores the entry under the key `Sign` and `Lock` look up, and
a `Sign` that follows returns the module's signing result. If, when the entry is stored,
no `lockAfter` is between its comparison and its delete for the address and no entry with
a timer is waiting to be stored for it, the address stays unlocked, and `Sign` keeps
returning the module's result, across every sequence of steps of the manager's calls and
timers, in any interleaving, that has no step of a `Lock` of the address or of a
`TimedUnlock` of it with a positive duration; a timer armed earlier for the address that
compares after the store does not remove the entry. -/
theorem TimedUnlock_stays_unlocked (s : Interleaved) (acctAddr : Address) (d : Int)
    (toSign : Bytes) (events : List Event)
    (hc : s.mgr.wrapper.Contains acctAddr = true) (hd : d ≤ 0)
    (hdel : ∀ t ∈ s.deleting, t.addr ≠ acctAddr.ToHexString)
    (hsto : ∀ p ∈ s.storing, p.1 = acctAddr.ToHexString →
      ∀ t ∈ s.mgr.timers, t.addr = acctAddr.ToHexString → t.key ≠ p.2)
    (hev : ∀ e ∈ events, e.mayLock acctAddr = false) :
    (s.timedUnlockBegins acctAddr d).1 = none ∧
    (s.timedUnlockBegins acctAddr d).2.mgr.timers = s.mgr.timers ∧
    (∀ t ∈ s.mgr.timers, t.key ≠ s.newLockableKey) ∧
    TrimPrefix acctAddr.ToHexString "0x" = acctAddr.ToHexString ∧
    mapGet ((s.timedUnlockBegins acctAddr d).2.timedUnlockStores acctAddr.ToHexString
        s.newLockableKey).mgr.unlocked acctAddr.ToHexString = some s.newLockableKey ∧
    (((s.timedUnlockBegins acctAddr d).2.timedUnlockStores acctAddr.ToHexString
        s.newLockableKey).mgr.Sign acctAddr toSign).1 = s.mgr.wrapper.Sign toSign acctAddr ∧
    mapGet (runEvents ((s.timedUnlockBegins acctAddr d).2.timedUnlockStores
        acctAddr.ToHexString s.newLockableKey) events).mgr.unlocked acctAddr.ToHexString
      ≠ none ∧
    ((runEvents ((s.timedUnlockBegins acctAddr d).2.timedUnlockStores
        acctAddr.ToHexString s.newLockableKey) events).mgr.Sign acctAddr toSign).1
      = s.mgr.wrapper.Sign toSign acctAddr := by
  have hd' : ¬ d > 0 := not_lt.mpr hd
  have e := Interleaved.timedUnlockBegins_of_contains s acctAddr d hc
  rw [if_neg hd'] at e
  have hfresh : ∀ t ∈ s.mgr.timers, t.key ≠ s.newLockableKey :=
    fun t ht => Interleaved.freshKey_ne_waiting_timer s t ht
  generalize hs2 : (s.timedUnlockBegins acctAddr d).2.timedUnlockStores acctAddr.ToHexString
    s.newLockableKey = s2
  have hs2' : s2 = { s with
      mgr := { s.mgr with
        unlocked := mapSet s.mgr.unlocked acctAddr.ToHexString s.newLockableKey }
      storing := (s.storing ++ [(acctAddr.ToHexString, s.newLockableKey)]).erase
        (acctAddr.ToHexString, s.newLockableKey) } := by
    rw [← hs2, e]
    simp [Interleaved.timedUnlockStores]
  have hw2 : s2.mgr.wrapper = s.mgr.wrapper := by rw [hs2']
  have ht2 : s2.mgr.timers = s.mgr.timers := by rw [hs2']
  have hget : mapGet s2.mgr.unlocked acctAddr.ToHexString = some s.newLockableKey := by
    rw [hs2']; exact mapGet_mapSet_self _ _ _
  have h0 : staysOpen s.mgr.wrapper acctAddr s2 := by
    refine ⟨hw2, ⟨s.newLockableKey, hget, ?_⟩, ?_, ?_⟩
    · intro t htm _
      rw [ht2] at htm
      exact hfresh t htm
    · rw [hs2']; exact hdel
    · intro p hp hpa t htm hta
      rw [ht2] at htm
      have hp' : p ∈ s.storing ++ [(acctAddr.ToHexString, s.newLockableKey)] := by
        rw [hs2'] at hp
        exact List.mem_of_mem_erase hp
      rcases List.mem_append.mp hp' with hm | hm
      · exact hsto p hm hpa t htm hta
      · rw [List.mem_singleton] at hm
        rw [hm]
        exact hfresh t htm
  obtain ⟨hwr, ⟨k, hk, _⟩, _, _⟩ := staysOpen_runEvents s.mgr.wrapper acctAddr events s2 h0 hev
  refine ⟨by rw [e], by rw [e], hfresh, TrimPrefix_ToHexString acctAddr, hget, ?_, ?_, ?_⟩
  · rw [Sign_of_unlocked s2.mgr acctAddr toSign _ (by rw [hw2]; exact hc) hget, hw2]
  · rw [hk]; simp
  · rw [Sign_of_unlocked (runEvents s2 events).mgr acctAddr toSign k
      (by rw [hwr]; exact hc) hk, hwr]

/-- Witness of C2: the address is unlocked with a timer waiting and is unlocked again with
duration 0; then the old timer compares, another address is locked, the address is
unlocked once more with a negative duration and that entry is stored. -/
theorem TimedUnlock_stays_unlocked_witness :
    ((runEvents (((quiescent (timedManager (addrOf 1) 5)).timedUnlockBegins (addrOf 1)
        0).2.timedUnlockStores (addrOf 1).ToHexString
          (quiescent (timedManager (addrOf 1) 5)).newLockableKey)
        [Event.lockAfterCompares ⟨(addrOf 1).ToHexString, 1, 5⟩,
          Event.lockAfterDeletes ⟨(addrOf 1).ToHexString, 1, 5⟩,
          Event.lockLooksUp (addrOf 2), Event.reads,
          Event.timedUnlockBegins (addrOf 1) (-3),
          Event.timedUnlockStores (addrOf 1).ToHexString 3]).mgr.Sign (addrOf 1) [1]).1
      = (some [1], none) :=
  (TimedUnlock_stays_unlocked (quiescent (timedManager (addrOf 1) 5)) (addrOf 1) 0 [1]
    [Event.lockAfterCompares ⟨(addrOf 1).ToHexString, 1, 5⟩,
      Event.lockAfterDeletes ⟨(addrOf 1).ToHexString, 1, 5⟩,
      Event.lockLooksUp (addrOf 2), Event.reads,
      Event.timedUnlockBegins (addrOf 1) (-3),
      Event.timedUnlockStores (addrOf 1).ToHexString 3]
    (by decide) (by decide) (by decide) (by decide) (by decide)).2.2.2.2.2.2.2

/-- C3 at failing inputs, from a manager with nothing unlocked. First schedule:
`TimedUnlock` with a positive duration stores entry 1; its timer fires and the comparison
succeeds; a second `TimedUnlock` stores the newer entry 2; the first goroutine then
deletes, and the newer entry is gone: `Sign` fails with "account locked". Second
schedule: the timer fires before `TimedUnlock` has stored, the comparison fails and the
goroutine ends; the entry is then stored and nothing is left to remove it: `Sign` after
the firing succeeds. -/
theorem lockAfter_races :
    mapGet (runEvents (quiescent (freshManager (moduleOf [addrOf 1]))) staleDelete.dropLast
        ).mgr.unlocked (addrOf 1).ToHexString = some 2 ∧
    (runEvents (quiescent (freshManager (moduleOf [addrOf 1]))) staleDelete).mgr.unlocked
      = [] ∧
    ((runEvents (quiescent (freshManager (moduleOf [addrOf 1]))) staleDelete).mgr.Sign
        (addrOf 1) [1]).1 = (none, some "account locked") ∧
    (runEvents (quiescent (freshManager (moduleOf [addrOf 1]))) earlyTimer).mgr.unlocked
      = [((addrOf 1).ToHexString, 1)] ∧
    (runEvents (quiescent (freshManager (moduleOf [addrOf 1]))) earlyTimer).mgr.timers
      = [] ∧
    (runEvents (quiescent (freshManager (moduleOf [addrOf 1]))) earlyTimer).deleting = [] ∧
    ((runEvents (quiescent (freshManager (moduleOf [addrOf 1]))) earlyTimer).mgr.Sign
        (addrOf 1) [1]).1 = (some [1], none) := by
  refine ⟨by decide, by decide, by decide, by decide, by decide, by decide, by decide⟩

end Pkcs11
